import Mathlib

/-!
Verification of the generate-execute-retry pipeline of this repository.

The development shallowly embeds the two Python modules of the repository,
`main.py` and `tests/ntest.py`, into Lean.  Python strings are modelled as
`List Char`; the standard-library collaborators that the code calls
(`json.dumps` and `json.loads`, `subprocess.run`, `pip`) are modelled as
executable Lean functions or as oracle parameters, as documented at each
definition.  All definitions are computable so that concrete runs of the
embedded code can be checked by `rfl` or `decide`.
-/

/-- Python strings are modelled as lists of characters. -/
abbrev Str := List Char

/-- The left curly bracket character. -/
def lbrace : Char := Char.ofNat 123

/-- The right curly bracket character. -/
def rbrace : Char := Char.ofNat 125

/-- The backtick character. -/
def btick : Char := Char.ofNat 96

/-- Characters treated as whitespace by Python `str.strip()` and by the
regular-expression class `\s` (the ASCII fragment, which is all the
embedded programs produce). -/
def pySpace (c : Char) : Bool :=
  c = ' ' || c = '\t' || c = '\n' || c = '\r' || c = Char.ofNat 11 || c = Char.ofNat 12

/-- Model of Python `str.strip()`: remove leading and trailing whitespace. -/
def pyStrip (s : Str) : Str :=
  ((s.dropWhile pySpace).reverse.dropWhile pySpace).reverse

/-- `isPre pat s` holds when `pat` is an initial segment of `s`. -/
def isPre : Str → Str → Bool
  | [], _ => true
  | _ :: _, [] => false
  | a :: as, b :: bs => a = b && isPre as bs

/-- Index of the first occurrence of `pat` in `s`, if any: the model of
Python `str.find` (restricted to the found case) and of the substring
test `pat in s`. -/
def findSub (pat : Str) : Str → Option Nat
  | [] => if pat = [] then some 0 else none
  | c :: rest => if isPre pat (c :: rest) then some 0 else (findSub pat rest).map (· + 1)

/-- Model of the Python substring test `pat in s`. -/
def containsSub (pat s : Str) : Bool := (findSub pat s).isSome

/-- Python slice `s[start:stop]` for non-negative indices. -/
def pySlice (s : Str) (start stop : Nat) : Str := (s.drop start).take (stop - start)

/-- JSON whitespace characters skipped by the decoder. -/
def jsonWs (c : Char) : Bool := c = ' ' || c = '\t' || c = '\n' || c = '\r'

/-- Skip leading JSON whitespace. -/
def skipWs (s : Str) : Str := s.dropWhile jsonWs

/-- Decimal digit test. -/
def isDig (c : Char) : Bool := 48 ≤ c.toNat && c.toNat ≤ 57

/-- Value of a decimal digit character. -/
def digVal (c : Char) : Nat := c.toNat - 48

/-- Decimal digit character for a value below ten. -/
def digitChar (n : Nat) : Char := Char.ofNat (48 + n)

/-- Decimal digits of a natural number, most significant first, with an
explicit fuel argument for structural termination. -/
def natDigitsAux : Nat → Nat → Str
  | 0, _ => []
  | fuel + 1, n => if n < 10 then [digitChar n] else natDigitsAux fuel (n / 10) ++ [digitChar (n % 10)]

/-- Decimal representation of a natural number, as produced by Python
`str` on a non-negative `int`. -/
def natDigits (n : Nat) : Str := natDigitsAux (n + 1) n

/-- Numeric value of a digit string. -/
def digitsVal (ds : Str) : Nat := ds.foldl (fun a c => a * 10 + digVal c) 0

/-- Decimal representation of an integer, as produced by Python `str`. -/
def intDigits (n : Int) : Str :=
  if n < 0 then '-' :: natDigits n.natAbs else natDigits n.toNat

/-- Lowercase hexadecimal digit character for a value below sixteen. -/
def hexChar (n : Nat) : Char := if n < 10 then digitChar n else Char.ofNat (87 + n)

/-- Four lowercase hexadecimal digits of a value below `0x10000`, as in a
JSON `\uXXXX` escape emitted by `json.dumps`. -/
def hex4 (n : Nat) : Str :=
  [hexChar (n / 4096 % 16), hexChar (n / 256 % 16), hexChar (n / 16 % 16), hexChar (n % 16)]

/-- Value of one hexadecimal digit character, either case. -/
def hexVal (c : Char) : Option Nat :=
  if isDig c then some (digVal c)
  else if 97 ≤ c.toNat && c.toNat ≤ 102 then some (c.toNat - 87)
  else if 65 ≤ c.toNat && c.toNat ≤ 70 then some (c.toNat - 55) else none

/-- JSON values.  Numbers are restricted to integers: the generated
programs of this repository report integer or structured answers, and the
round-trip properties in the spec are stated for strings, numbers, lists
and mappings, all of which this type covers.  Floating point is out of
scope of the shallow embedding. -/
inductive Json where
  | null
  | bool (b : Bool)
  | num (n : Int)
  | str (s : Str)
  | arr (elems : List Json)
  | obj (fields : List (Str × Json))
deriving Repr

/-- Escape of one character inside a JSON string, as emitted by
`json.dumps` with its default `ensure_ascii=True`: the two-character
escapes for quote, backslash and the common control characters, and a
`\uXXXX` escape for every other character outside the printable ASCII
range. -/
def escChar (c : Char) : Str :=
  if c = '"' then ['\\', '"']
  else if c = '\\' then ['\\', '\\']
  else if c = '\n' then ['\\', 'n']
  else if c = '\r' then ['\\', 'r']
  else if c = '\t' then ['\\', 't']
  else if c = Char.ofNat 8 then ['\\', 'b']
  else if c = Char.ofNat 12 then ['\\', 'f']
  else if c.toNat < 32 || 126 < c.toNat then '\\' :: 'u' :: hex4 c.toNat
  else [c]

/-- Escaped body of a JSON string literal. -/
def escBody (s : Str) : Str := s.foldr (fun c acc => escChar c ++ acc) []

/-- A JSON string literal: quote, escaped body, quote. -/
def encStr (s : Str) : Str := '"' :: escBody s ++ ['"']

mutual
/-- Model of `json.dumps` with its default arguments (separators
`", "` and `": "`, `ensure_ascii=True`). -/
def dumps : Json → Str
  | .null => "null".data
  | .bool true => "true".data
  | .bool false => "false".data
  | .num n => intDigits n
  | .str s => encStr s
  | .arr es => '[' :: dumpsElems es
  | .obj fs => lbrace :: dumpsFields fs

/-- Encoded elements of a JSON array, including the closing bracket. -/
def dumpsElems : List Json → Str
  | [] => [']']
  | [e] => dumps e ++ [']']
  | e :: es => dumps e ++ ',' :: ' ' :: dumpsElems es

/-- Encoded fields of a JSON object, including the closing bracket. -/
def dumpsFields : List (Str × Json) → Str
  | [] => [rbrace]
  | [(k, v)] => encStr k ++ ':' :: ' ' :: dumps v ++ [rbrace]
  | (k, v) :: fs => encStr k ++ ':' :: ' ' :: dumps v ++ ',' :: ' ' :: dumpsFields fs
end

/-- A string is encodable without surrogate pairs when every character is
below `0x10000`; `json.dumps` would emit a surrogate-pair escape beyond
that, which the model does not cover. -/
def strWf (s : Str) : Bool := s.all (fun c => c.toNat < 65536)

mutual
/-- Well-formedness of a JSON value for the encoding model: every string
in it satisfies `strWf`. -/
def jwf : Json → Bool
  | .null => true
  | .bool _ => true
  | .num _ => true
  | .str s => strWf s
  | .arr es => jwfElems es
  | .obj fs => jwfFields fs

/-- All elements well formed. -/
def jwfElems : List Json → Bool
  | [] => true
  | e :: es => jwf e && jwfElems es

/-- All keys and values well formed. -/
def jwfFields : List (Str × Json) → Bool
  | [] => true
  | (k, v) :: fs => strWf k && jwf v && jwfFields fs
end

/-- Parse four hexadecimal digits. -/
def parseHex4 : Str → Option (Nat × Str)
  | a :: b :: c :: d :: rest =>
    match hexVal a, hexVal b, hexVal c, hexVal d with
    | some x, some y, some z, some w => some (x * 4096 + y * 256 + z * 16 + w, rest)
    | _, _, _, _ => none
  | _ => none

/-- Decode a single-character JSON escape. -/
def escDecode (c : Char) : Option Char :=
  if c = '"' then some '"'
  else if c = '\\' then some '\\'
  else if c = '/' then some '/'
  else if c = 'b' then some (Char.ofNat 8)
  else if c = 'f' then some (Char.ofNat 12)
  else if c = 'n' then some '\n'
  else if c = 'r' then some '\r'
  else if c = 't' then some '\t'
  else none

/-- Parse a JSON string body after the opening quote, strict about raw
control characters as `json.loads` is.  Lone-surrogate `\u` escapes are
not modelled (a Lean `Char` cannot hold them). -/
def parseStrBody : Nat → Str → Option (Str × Str)
  | 0, _ => none
  | _ + 1, [] => none
  | fuel + 1, c :: rest =>
    if c = '"' then some ([], rest)
    else if c = '\\' then
      match rest with
      | [] => none
      | e :: rest2 =>
        if e = 'u' then
          match parseHex4 rest2 with
          | some (n, rest3) =>
            if n < 55296 || (57343 < n && n < 65536) then
              (parseStrBody fuel rest3).map (fun p => (Char.ofNat n :: p.1, p.2))
            else none
          | none => none
        else
          match escDecode e with
          | some c2 => (parseStrBody fuel rest2).map (fun p => (c2 :: p.1, p.2))
          | none => none
    else if c.toNat < 32 then none
    else (parseStrBody fuel rest).map (fun p => (c :: p.1, p.2))

/-- A character that would continue a JSON number past its integer part. -/
def floatCont (c : Char) : Bool := c = '.' || c = 'e' || c = 'E'

/-- Parse an unsigned JSON integer with maximal munch, rejecting leading
zeros and any fractional or exponent continuation (the model covers the
integer fragment of the JSON number grammar; see `Json`). -/
def parseUNum (s : Str) : Option (Nat × Str) :=
  let ds := s.takeWhile isDig
  let rest := s.dropWhile isDig
  if ds = [] then none
  else if ds.headD ' ' = '0' && ds.length != 1 then none
  else
    match rest with
    | c :: _ => if floatCont c then none else some (digitsVal ds, rest)
    | [] => some (digitsVal ds, [])

/-- Parse a JSON integer with optional leading minus sign. -/
def parseNum (s : Str) : Option (Int × Str) :=
  match s with
  | c :: rest =>
    if c = '-' then (parseUNum rest).map (fun p => (-(p.1 : Int), p.2))
    else (parseUNum (c :: rest)).map (fun p => ((p.1 : Int), p.2))
  | [] => none

mutual
/-- Recursive-descent JSON value parser, the model of the decoding done
by `json.loads`.  The fuel argument only serves termination; `loads`
supplies enough for any input. -/
def parseVal : Nat → Str → Option (Json × Str)
  | 0, _ => none
  | fuel + 1, s0 =>
    match skipWs s0 with
    | [] => none
    | c :: rest =>
      if c = 'n' then
        match rest with
        | 'u' :: 'l' :: 'l' :: r => some (.null, r)
        | _ => none
      else if c = 't' then
        match rest with
        | 'r' :: 'u' :: 'e' :: r => some (.bool true, r)
        | _ => none
      else if c = 'f' then
        match rest with
        | 'a' :: 'l' :: 's' :: 'e' :: r => some (.bool false, r)
        | _ => none
      else if c = '"' then (parseStrBody fuel rest).map (fun p => (.str p.1, p.2))
      else if c = '[' then
        match skipWs rest with
        | [] => none
        | b :: r2 => if b = ']' then some (.arr [], r2) else (parseElems fuel rest).map (fun p => (.arr p.1, p.2))
      else if c = lbrace then
        match skipWs rest with
        | [] => none
        | b :: r2 => if b = rbrace then some (.obj [], r2) else (parseFields fuel rest).map (fun p => (.obj p.1, p.2))
      else if c = '-' || isDig c then (parseNum (c :: rest)).map (fun p => (.num p.1, p.2))
      else none

/-- Parse the elements of a non-empty JSON array up to the closing
bracket. -/
def parseElems : Nat → Str → Option (List Json × Str)
  | 0, _ => none
  | fuel + 1, s =>
    match parseVal fuel s with
    | none => none
    | some (v, r) =>
      match skipWs r with
      | [] => none
      | c :: r2 =>
        if c = ',' then (parseElems fuel r2).map (fun p => (v :: p.1, p.2))
        else if c = ']' then some ([v], r2)
        else none

/-- Parse the fields of a non-empty JSON object up to the closing
bracket. -/
def parseFields : Nat → Str → Option (List (Str × Json) × Str)
  | 0, _ => none
  | fuel + 1, s =>
    match skipWs s with
    | [] => none
    | c :: r1 =>
      if c = '"' then
        match parseStrBody fuel r1 with
        | none => none
        | some (k, r2) =>
          match skipWs r2 with
          | [] => none
          | d :: r3 =>
            if d = ':' then
              match parseVal fuel r3 with
              | none => none
              | some (v, r4) =>
                match skipWs r4 with
                | [] => none
                | e2 :: r5 =>
                  if e2 = ',' then (parseFields fuel r5).map (fun p => ((k, v) :: p.1, p.2))
                  else if e2 = rbrace then some ([(k, v)], r5)
                  else none
            else none
      else none
end

/-- Model of `json.loads`: parse one value and require only whitespace to
remain, as the Python decoder does. -/
def loads (s : Str) : Option Json :=
  match parseVal (2 * s.length + 2) s with
  | some (v, r) => if skipWs r = [] then some v else none
  | none => none

/-- Lookup of a key in a decoded JSON object.  Python builds a `dict`,
so a duplicated key keeps its last occurrence. -/
def objGetLast (fs : List (Str × Json)) (k : Str) : Option Json :=
  fs.foldl (fun acc p => if p.1 = k then some p.2 else acc) none

example : dumps (Json.obj [("answer".data, Json.num 4)]) = "\x7b\"answer\": 4\x7d".data := rfl

example : loads "\x7b\"answer\": 4\x7d".data = some (Json.obj [("answer".data, Json.num 4)]) := rfl

example : loads "\x7b\"a\": [1, -20, \"x\\n\"]\x7d".data
    = some (Json.obj [("a".data, Json.arr [Json.num 1, Json.num (-20), Json.str ['x', '\n']])]) := rfl

/-! ### Facts about digits and numbers -/

lemma digitChar_isDig {k : Nat} (h : k < 10) : isDig (digitChar k) = true := by
  interval_cases k <;> decide

lemma digVal_digitChar {k : Nat} (h : k < 10) : digVal (digitChar k) = k := by
  interval_cases k <;> decide

lemma digitChar_eq_zero_iff {k : Nat} (h : k < 10) : digitChar k = '0' ↔ k = 0 := by
  interval_cases k <;> simp <;> decide

lemma digitsVal_append_digit (ds : Str) (c : Char) :
    digitsVal (ds ++ [c]) = digitsVal ds * 10 + digVal c := by
  simp [digitsVal, List.foldl_append]

lemma natDigitsAux_spec : ∀ fuel n, n < fuel →
    natDigitsAux fuel n ≠ [] ∧ (∀ c ∈ natDigitsAux fuel n, isDig c = true) ∧
    digitsVal (natDigitsAux fuel n) = n ∧
    (n ≠ 0 → (natDigitsAux fuel n).headD ' ' ≠ '0') := by
  intro fuel
  induction fuel with
  | zero => intro n hn; omega
  | succ f ih =>
    intro n hn
    by_cases h10 : n < 10
    · refine ⟨by simp [natDigitsAux, h10], ?_, ?_, ?_⟩
      · intro c hc
        simp [natDigitsAux, h10] at hc
        subst hc; exact digitChar_isDig h10
      · simp [natDigitsAux, h10, digitsVal, digVal_digitChar h10]
      · intro hne
        simp only [natDigitsAux, h10, if_true, List.headD_cons]
        intro heq
        exact hne ((digitChar_eq_zero_iff h10).mp heq)
    · have hdiv : n / 10 < f := by omega
      obtain ⟨hne, hdigs, hval, hhead⟩ := ih (n / 10) hdiv
      have hmod : n % 10 < 10 := Nat.mod_lt _ (by omega)
      have heq : natDigitsAux (f + 1) n = natDigitsAux f (n / 10) ++ [digitChar (n % 10)] := by
        simp [natDigitsAux, h10]
      refine ⟨by simp [heq], ?_, ?_, ?_⟩
      · intro c hc
        rw [heq] at hc
        rcases List.mem_append.mp hc with h | h
        · exact hdigs c h
        · simp at h; subst h; exact digitChar_isDig hmod
      · rw [heq, digitsVal_append_digit, hval, digVal_digitChar hmod]
        omega
      · intro _
        rw [heq]
        obtain ⟨c, t, hct⟩ := List.exists_cons_of_ne_nil hne
        rw [hct]
        simp only [List.cons_append, List.headD_cons]
        have := hhead (by omega)
        rw [hct] at this
        simpa using this

lemma natDigits_ne_nil (n : Nat) : natDigits n ≠ [] :=
  (natDigitsAux_spec (n + 1) n (by omega)).1

lemma natDigits_all_dig (n : Nat) : ∀ c ∈ natDigits n, isDig c = true :=
  (natDigitsAux_spec (n + 1) n (by omega)).2.1

lemma natDigits_val (n : Nat) : digitsVal (natDigits n) = n :=
  (natDigitsAux_spec (n + 1) n (by omega)).2.2.1

lemma natDigits_head_ne_zero {n : Nat} (h : n ≠ 0) : (natDigits n).headD ' ' ≠ '0' :=
  (natDigitsAux_spec (n + 1) n (by omega)).2.2.2 h

lemma natDigits_zero : natDigits 0 = ['0'] := rfl

/-! ### takeWhile and dropWhile over a fully matching prefix -/

lemma takeWhile_app {p : Char → Bool} {xs : Str} (ys : Str) (h : ∀ c ∈ xs, p c = true) :
    (xs ++ ys).takeWhile p = xs ++ ys.takeWhile p := by
  induction xs with
  | nil => simp
  | cons x xs ih =>
    have hx := h x (by simp)
    simp [List.takeWhile, hx]
    exact ih (fun c hc => h c (by simp [hc]))

lemma dropWhile_app {p : Char → Bool} {xs : Str} (ys : Str) (h : ∀ c ∈ xs, p c = true) :
    (xs ++ ys).dropWhile p = ys.dropWhile p := by
  induction xs with
  | nil => simp
  | cons x xs ih =>
    have hx := h x (by simp)
    simp [List.dropWhile, hx]
    exact ih (fun c hc => h c (by simp [hc]))

lemma takeWhile_cons_false {p : Char → Bool} {c : Char} (t : Str) (h : p c = false) :
    (c :: t).takeWhile p = [] := by
  simp [List.takeWhile, h]

lemma dropWhile_cons_false {p : Char → Bool} {c : Char} (t : Str) (h : p c = false) :
    (c :: t).dropWhile p = c :: t := by
  simp [List.dropWhile, h]

/-! ### Number parsing round trip -/

/-- The next character, if any, does not extend a JSON number. -/
def numDelim (s : Str) : Prop :=
  match s with
  | [] => True
  | c :: _ => isDig c = false ∧ floatCont c = false

lemma parseUNum_of_digits (ds rest : Str) (hne : ds ≠ [])
    (hdigs : ∀ c ∈ ds, isDig c = true)
    (hlead : ds.headD ' ' = '0' → ds.length = 1)
    (h : numDelim rest) :
    parseUNum (ds ++ rest) = some (digitsVal ds, rest) := by
  have h1 : rest.takeWhile isDig = [] ∧ rest.dropWhile isDig = rest := by
    cases rest with
    | nil => simp
    | cons c t =>
      obtain ⟨hd1, _⟩ : isDig c = false ∧ floatCont c = false := h
      exact ⟨takeWhile_cons_false t hd1, dropWhile_cons_false t hd1⟩
  have hcond : (decide (ds.headD ' ' = '0') && (ds.length != 1)) = false := by
    by_cases hh : ds.headD ' ' = '0'
    · simp [hh, hlead hh]
    · rw [decide_eq_false hh, Bool.false_and]
  rw [parseUNum]
  simp only [takeWhile_app rest hdigs, dropWhile_app rest hdigs, h1.1, h1.2, List.append_nil]
  rw [if_neg hne, hcond]
  simp only [Bool.false_eq_true, if_false]
  cases rest with
  | nil => rfl
  | cons c t =>
    obtain ⟨_, hd2⟩ : isDig c = false ∧ floatCont c = false := h
    simp [hd2]

lemma parseUNum_natDigits (n : Nat) (rest : Str) (h : numDelim rest) :
    parseUNum (natDigits n ++ rest) = some (n, rest) := by
  have := parseUNum_of_digits (natDigits n) rest (natDigits_ne_nil n) (natDigits_all_dig n)
    (fun hh => by
      by_cases hz : n = 0
      · subst hz; rfl
      · exact absurd hh (natDigits_head_ne_zero hz)) h
  rw [this, natDigits_val]

lemma parseNum_intDigits (n : Int) (rest : Str) (h : numDelim rest) :
    parseNum (intDigits n ++ rest) = some (n, rest) := by
  by_cases hn : n < 0
  · have hi : intDigits n = '-' :: natDigits n.natAbs := by simp [intDigits, hn]
    rw [hi, List.cons_append]
    show (if '-' = '-' then (parseUNum (natDigits n.natAbs ++ rest)).map
        (fun p => (-(p.1 : Int), p.2))
      else (parseUNum ('-' :: (natDigits n.natAbs ++ rest))).map
        (fun p => ((p.1 : Int), p.2))) = some (n, rest)
    rw [if_pos rfl, parseUNum_natDigits n.natAbs rest h]
    have hval : -((n.natAbs : Nat) : Int) = n := by omega
    show some (-((n.natAbs : Nat) : Int), rest) = some (n, rest)
    rw [hval]
  · have hi : intDigits n = natDigits n.toNat := by simp [intDigits, hn]
    rw [hi]
    obtain ⟨c, t, hct⟩ := List.exists_cons_of_ne_nil (natDigits_ne_nil n.toNat)
    have hcd : isDig c = true := by
      apply natDigits_all_dig n.toNat
      rw [hct]; simp
    have hcm : c ≠ '-' := by
      intro hceq; subst hceq
      exact absurd hcd (by decide)
    rw [hct, List.cons_append]
    show (if c = '-' then (parseUNum (t ++ rest)).map (fun p => (-(p.1 : Int), p.2))
      else (parseUNum (c :: (t ++ rest))).map (fun p => ((p.1 : Int), p.2))) = some (n, rest)
    rw [if_neg hcm, ← List.cons_append, ← hct, parseUNum_natDigits n.toNat rest h]
    have hval : ((n.toNat : Nat) : Int) = n := by omega
    show some (((n.toNat : Nat) : Int), rest) = some (n, rest)
    rw [hval]

/-! ### Hexadecimal and string escape round trip -/

lemma hexVal_hexChar {k : Nat} (h : k < 16) : hexVal (hexChar k) = some k := by
  interval_cases k <;> decide

lemma parseHex4_hex4 (n : Nat) (rest : Str) (h : n < 65536) :
    parseHex4 (hex4 n ++ rest) = some (n, rest) := by
  have h1 : n / 4096 % 16 < 16 := Nat.mod_lt _ (by omega)
  have h2 : n / 256 % 16 < 16 := Nat.mod_lt _ (by omega)
  have h3 : n / 16 % 16 < 16 := Nat.mod_lt _ (by omega)
  have h4 : n % 16 < 16 := Nat.mod_lt _ (by omega)
  show parseHex4 (hexChar (n / 4096 % 16) :: hexChar (n / 256 % 16) :: hexChar (n / 16 % 16)
    :: hexChar (n % 16) :: rest) = some (n, rest)
  rw [parseHex4, hexVal_hexChar h1, hexVal_hexChar h2, hexVal_hexChar h3, hexVal_hexChar h4]
  show some (n / 4096 % 16 * 4096 + n / 256 % 16 * 256 + n / 16 % 16 * 16 + n % 16, rest)
    = some (n, rest)
  have : n / 4096 % 16 * 4096 + n / 256 % 16 * 256 + n / 16 % 16 * 16 + n % 16 = n := by omega
  rw [this]

lemma char_valid_range (c : Char) : c.toNat < 55296 ∨ (57343 < c.toNat ∧ c.toNat < 1114112) :=
  c.valid

lemma escChar_len_pos (c : Char) : 1 ≤ (escChar c).length := by
  rw [escChar]
  repeat' split
  all_goals simp [hex4]

lemma escBody_cons (c : Char) (s : Str) : escBody (c :: s) = escChar c ++ escBody s := rfl

lemma escBody_len (s : Str) : s.length ≤ (escBody s).length := by
  induction s with
  | nil => simp [escBody]
  | cons c t ih =>
    rw [escBody_cons, List.length_append, List.length_cons]
    have := escChar_len_pos c
    omega

lemma parseStrBody_cons (f : Nat) (c : Char) (rest : Str) :
    parseStrBody (f + 1) (c :: rest) =
      (if c = '"' then some ([], rest)
      else if c = '\\' then
        match rest with
        | [] => none
        | e :: rest2 =>
          if e = 'u' then
            match parseHex4 rest2 with
            | some (n, rest3) =>
              if n < 55296 || (57343 < n && n < 65536) then
                (parseStrBody f rest3).map (fun p => (Char.ofNat n :: p.1, p.2))
              else none
            | none => none
          else
            match escDecode e with
            | some c2 => (parseStrBody f rest2).map (fun p => (c2 :: p.1, p.2))
            | none => none
      else if c.toNat < 32 then none
      else (parseStrBody f rest).map (fun p => (c :: p.1, p.2))) := rfl

lemma parseStrBody_escBody : ∀ fuel s rest, strWf s = true → s.length < fuel →
    parseStrBody fuel (escBody s ++ '"' :: rest) = some (s, rest) := by
  intro fuel
  induction fuel with
  | zero => intro s rest _ h; omega
  | succ f ih =>
    intro s rest hwf hlen
    cases s with
    | nil =>
      show parseStrBody (f + 1) ('"' :: rest) = some ([], rest)
      rw [parseStrBody_cons, if_pos rfl]
    | cons c t =>
      have hwfc : c.toNat < 65536 := by
        simp only [strWf, List.all_cons, Bool.and_eq_true, decide_eq_true_eq] at hwf
        exact hwf.1
      have hwft : strWf t = true := by
        simp only [strWf, List.all_cons, Bool.and_eq_true] at hwf
        exact hwf.2
      have hlent : t.length < f := by
        simp at hlen; omega
      have iht := ih t rest hwft hlent
      rw [escBody_cons]
      by_cases h1 : c = '"'
      · subst h1
        show (parseStrBody f (escBody t ++ '"' :: rest)).map (fun p => ('"' :: p.1, p.2))
          = some ('"' :: t, rest)
        rw [iht]
        rfl
      · by_cases h2 : c = '\\'
        · subst h2
          show (parseStrBody f (escBody t ++ '"' :: rest)).map (fun p => ('\\' :: p.1, p.2))
            = some ('\\' :: t, rest)
          rw [iht]
          rfl
        · by_cases h3 : c = '\n'
          · subst h3
            show (parseStrBody f (escBody t ++ '"' :: rest)).map (fun p => ('\n' :: p.1, p.2))
              = some ('\n' :: t, rest)
            rw [iht]
            rfl
          · by_cases h4 : c = '\r'
            · subst h4
              show (parseStrBody f (escBody t ++ '"' :: rest)).map (fun p => ('\r' :: p.1, p.2))
                = some ('\r' :: t, rest)
              rw [iht]
              rfl
            · by_cases h5 : c = '\t'
              · subst h5
                show (parseStrBody f (escBody t ++ '"' :: rest)).map (fun p => ('\t' :: p.1, p.2))
                  = some ('\t' :: t, rest)
                rw [iht]
                rfl
              · by_cases h6 : c = Char.ofNat 8
                · subst h6
                  show (parseStrBody f (escBody t ++ '"' :: rest)).map
                      (fun p => (Char.ofNat 8 :: p.1, p.2))
                    = some (Char.ofNat 8 :: t, rest)
                  rw [iht]
                  rfl
                · by_cases h7 : c = Char.ofNat 12
                  · subst h7
                    show (parseStrBody f (escBody t ++ '"' :: rest)).map
                        (fun p => (Char.ofNat 12 :: p.1, p.2))
                      = some (Char.ofNat 12 :: t, rest)
                    rw [iht]
                    rfl
                  · by_cases h8 : c.toNat < 32 || 126 < c.toNat
                    · have hesc : escChar c = '\\' :: 'u' :: hex4 c.toNat := by
                        rw [escChar, if_neg h1, if_neg h2, if_neg h3, if_neg h4, if_neg h5,
                          if_neg h6, if_neg h7, if_pos h8]
                      rw [hesc]
                      show (match parseHex4 (hex4 c.toNat ++ (escBody t ++ '"' :: rest)) with
                        | some (n, rest3) =>
                          if n < 55296 || (57343 < n && n < 65536) then
                            (parseStrBody f rest3).map (fun p => (Char.ofNat n :: p.1, p.2))
                          else none
                        | none => none) = some (c :: t, rest)
                      rw [parseHex4_hex4 c.toNat _ hwfc]
                      have hval : (decide (c.toNat < 55296)
                          || (decide (57343 < c.toNat) && decide (c.toNat < 65536))) = true := by
                        rcases char_valid_range c with h | ⟨ha, _⟩
                        · simp [h]
                        · simp [ha, hwfc]
                      show (if c.toNat < 55296 || (57343 < c.toNat && c.toNat < 65536) then
                          (parseStrBody f (escBody t ++ '"' :: rest)).map
                            (fun p => (Char.ofNat c.toNat :: p.1, p.2))
                        else none) = some (c :: t, rest)
                      rw [if_pos hval, iht]
                      show some (Char.ofNat c.toNat :: t, rest) = some (c :: t, rest)
                      rw [Char.ofNat_toNat]
                    · have hesc : escChar c = [c] := by
                        rw [escChar, if_neg h1, if_neg h2, if_neg h3, if_neg h4, if_neg h5,
                          if_neg h6, if_neg h7, if_neg (by simpa using h8)]
                      rw [hesc]
                      have hge : ¬ (c.toNat < 32) := by
                        simp only [Bool.or_eq_true, decide_eq_true_eq, not_or] at h8
                        omega
                      show parseStrBody (f + 1) (c :: (escBody t ++ '"' :: rest))
                        = some (c :: t, rest)
                      rw [parseStrBody_cons, if_neg h1, if_neg h2, if_neg hge, iht]
                      rfl

/-! ### Whitespace and unfolding helpers for the value parser -/

lemma skipWs_app {w : Str} (t : Str) (h : w.all jsonWs = true) : skipWs (w ++ t) = skipWs t :=
  dropWhile_app t (by simpa [List.all_eq_true] using h)

lemma skipWs_cons_not {c : Char} (t : Str) (h : jsonWs c = false) : skipWs (c :: t) = c :: t :=
  dropWhile_cons_false t h

lemma parseVal_ws (f : Nat) {w : Str} (s : Str) (h : w.all jsonWs = true) :
    parseVal f (w ++ s) = parseVal f s := by
  cases f with
  | zero => rfl
  | succ f =>
    rw [parseVal, skipWs_app s h]
    rfl

lemma parseElems_ws (f : Nat) {w : Str} (s : Str) (h : w.all jsonWs = true) :
    parseElems f (w ++ s) = parseElems f s := by
  cases f with
  | zero => rfl
  | succ f =>
    rw [parseElems, parseVal_ws f s h]
    rfl

lemma parseFields_ws (f : Nat) {w : Str} (s : Str) (h : w.all jsonWs = true) :
    parseFields f (w ++ s) = parseFields f s := by
  cases f with
  | zero => rfl
  | succ f =>
    rw [parseFields, skipWs_app s h]
    rfl

lemma parseVal_sp (f : Nat) (s : Str) : parseVal f (' ' :: s) = parseVal f s :=
  parseVal_ws f (w := [' ']) s (by decide)

lemma parseElems_sp (f : Nat) (s : Str) : parseElems f (' ' :: s) = parseElems f s :=
  parseElems_ws f (w := [' ']) s (by decide)

lemma parseFields_sp (f : Nat) (s : Str) : parseFields f (' ' :: s) = parseFields f s :=
  parseFields_ws f (w := [' ']) s (by decide)

lemma parseVal_cons (f : Nat) (c : Char) (r : Str) (h : jsonWs c = false) :
    parseVal (f + 1) (c :: r) =
      (if c = 'n' then
        match r with
        | 'u' :: 'l' :: 'l' :: r2 => some (Json.null, r2)
        | _ => none
      else if c = 't' then
        match r with
        | 'r' :: 'u' :: 'e' :: r2 => some (Json.bool true, r2)
        | _ => none
      else if c = 'f' then
        match r with
        | 'a' :: 'l' :: 's' :: 'e' :: r2 => some (Json.bool false, r2)
        | _ => none
      else if c = '"' then (parseStrBody f r).map (fun p => (Json.str p.1, p.2))
      else if c = '[' then
        match skipWs r with
        | [] => none
        | b :: r2 =>
          if b = ']' then some (Json.arr [], r2)
          else (parseElems f r).map (fun p => (Json.arr p.1, p.2))
      else if c = lbrace then
        match skipWs r with
        | [] => none
        | b :: r2 =>
          if b = rbrace then some (Json.obj [], r2)
          else (parseFields f r).map (fun p => (Json.obj p.1, p.2))
      else if c = '-' || isDig c then (parseNum (c :: r)).map (fun p => (Json.num p.1, p.2))
      else none) := by
  rw [parseVal, skipWs_cons_not r h]
  rfl

/-! ### Head shapes of encoded values -/

lemma isDig_char_facts {c : Char} (h : isDig c = true) :
    jsonWs c = false ∧ c ≠ 'n' ∧ c ≠ 't' ∧ c ≠ 'f' ∧ c ≠ '"' ∧ c ≠ '[' ∧ c ≠ lbrace ∧ c ≠ ']' := by
  refine ⟨?_, ?_, ?_, ?_, ?_, ?_, ?_, ?_⟩
  · by_contra hws
    have hws2 : jsonWs c = true := by simpa using hws
    simp only [jsonWs, Bool.or_eq_true, decide_eq_true_eq] at hws2
    rcases hws2 with ((h1 | h1) | h1) | h1 <;> subst h1 <;> exact absurd h (by decide)
  all_goals intro heq
  all_goals subst heq
  all_goals exact absurd h (by decide)

lemma dumps_shape (v : Json) : ∃ c t, dumps v = c :: t ∧ jsonWs c = false ∧ c ≠ ']' := by
  cases v with
  | null => exact ⟨'n', ['u', 'l', 'l'], rfl, by decide, by decide⟩
  | bool b =>
    cases b with
    | false => exact ⟨'f', ['a', 'l', 's', 'e'], rfl, by decide, by decide⟩
    | true => exact ⟨'t', ['r', 'u', 'e'], rfl, by decide, by decide⟩
  | num n =>
    by_cases hn : n < 0
    · exact ⟨'-', natDigits n.natAbs, by simp [dumps, intDigits, hn], by decide, by decide⟩
    · obtain ⟨c, t, hct⟩ := List.exists_cons_of_ne_nil (natDigits_ne_nil n.toNat)
      have hcd : isDig c = true := natDigits_all_dig n.toNat c (by rw [hct]; simp)
      obtain ⟨hws, _, _, _, _, _, _, hrb⟩ := isDig_char_facts hcd
      exact ⟨c, t, by simp [dumps, intDigits, hn, hct], hws, hrb⟩
  | str s => exact ⟨'"', escBody s ++ ['"'], rfl, by decide, by decide⟩
  | arr es => exact ⟨'[', dumpsElems es, rfl, by decide, by decide⟩
  | obj fs => exact ⟨lbrace, dumpsFields fs, rfl, by decide, by decide⟩

lemma dumpsElems_shape (es : List Json) (h : es ≠ []) :
    ∃ c t, dumpsElems es = c :: t ∧ jsonWs c = false ∧ c ≠ ']' := by
  cases es with
  | nil => exact absurd rfl h
  | cons e es =>
    obtain ⟨c, t, hct, hws, hrb⟩ := dumps_shape e
    cases es with
    | nil => exact ⟨c, t ++ [']'], by simp [dumpsElems, hct], hws, hrb⟩
    | cons e2 es2 =>
      exact ⟨c, t ++ ',' :: ' ' :: dumpsElems (e2 :: es2), by simp [dumpsElems, hct], hws, hrb⟩

lemma dumpsFields_shape (fs : List (Str × Json)) (h : fs ≠ []) :
    ∃ t, dumpsFields fs = '"' :: t := by
  cases fs with
  | nil => exact absurd rfl h
  | cons kv fs =>
    obtain ⟨k, v⟩ := kv
    cases fs with
    | nil =>
      exact ⟨escBody k ++ '"' :: ':' :: ' ' :: (dumps v ++ [rbrace]),
        by simp [dumpsFields, encStr]⟩
    | cons kv2 fs2 =>
      exact ⟨escBody k ++ '"' :: ':' :: ' ' :: (dumps v ++ ',' :: ' ' :: dumpsFields (kv2 :: fs2)),
        by simp [dumpsFields, encStr]⟩

lemma parseFields_quote (f : Nat) (r1 : Str) :
    parseFields (f + 1) ('"' :: r1) =
      (match parseStrBody f r1 with
      | none => none
      | some (k, r2) =>
        match skipWs r2 with
        | [] => none
        | d :: r3 =>
          if d = ':' then
            match parseVal f r3 with
            | none => none
            | some (v, r4) =>
              match skipWs r4 with
              | [] => none
              | e2 :: r5 =>
                if e2 = ',' then (parseFields f r5).map (fun p => ((k, v) :: p.1, p.2))
                else if e2 = rbrace then some ([(k, v)], r5)
                else none
          else none) := by
  rw [parseFields, skipWs_cons_not r1 (by decide)]
  rfl

/-- Round trip of the JSON model, by induction on parser fuel: parsing an
encoded value consumes exactly the encoding and returns the value. -/
theorem parse_dumps_all : ∀ f : Nat,
    (∀ (v : Json) (rest : Str), jwf v = true → numDelim rest → (dumps v).length < f →
      parseVal f (dumps v ++ rest) = some (v, rest)) ∧
    (∀ (es : List Json) (rest : Str), es ≠ [] → jwfElems es = true →
      (dumpsElems es).length < f → parseElems f (dumpsElems es ++ rest) = some (es, rest)) ∧
    (∀ (fs : List (Str × Json)) (rest : Str), fs ≠ [] → jwfFields fs = true →
      (dumpsFields fs).length < f → parseFields f (dumpsFields fs ++ rest) = some (fs, rest)) := by
  intro f
  induction f with
  | zero =>
    exact ⟨fun v rest _ _ h => absurd h (by omega),
           fun es rest _ _ h => absurd h (by omega),
           fun fs rest _ _ h => absurd h (by omega)⟩
  | succ f ih =>
    obtain ⟨ihP, ihQ, ihR⟩ := ih
    refine ⟨?_, ?_, ?_⟩
    · intro v rest hwf hnum hlen
      cases v with
      | null => rfl
      | bool b =>
        cases b with
        | false => rfl
        | true => rfl
      | num n =>
        simp only [dumps] at hlen ⊢
        by_cases hn : n < 0
        · have hi : intDigits n = '-' :: natDigits n.natAbs := by simp [intDigits, hn]
          rw [hi]
          show (parseNum ('-' :: (natDigits n.natAbs ++ rest))).map (fun p => (Json.num p.1, p.2))
            = some (Json.num n, rest)
          rw [← List.cons_append, ← hi, parseNum_intDigits n rest hnum]
          rfl
        · have hi : intDigits n = natDigits n.toNat := by simp [intDigits, hn]
          obtain ⟨c, t, hct⟩ := List.exists_cons_of_ne_nil (natDigits_ne_nil n.toNat)
          have hcd : isDig c = true := natDigits_all_dig n.toNat c (by rw [hct]; simp)
          obtain ⟨hws, hn1, hn2, hn3, hn4, hn5, hn6, _⟩ := isDig_char_facts hcd
          rw [hi, hct, List.cons_append, parseVal_cons f c (t ++ rest) hws,
            if_neg hn1, if_neg hn2, if_neg hn3, if_neg hn4, if_neg hn5, if_neg hn6,
            if_pos (show (decide (c = '-') || isDig c) = true by simp [hcd])]
          rw [← List.cons_append, ← hct, ← hi, parseNum_intDigits n rest hnum]
          rfl
      | str s =>
        have hwfs : strWf s = true := by simpa [jwf] using hwf
        have hslen : s.length < f := by
          have := escBody_len s
          simp only [dumps, encStr, List.length_cons, List.length_append,
            List.length_singleton] at hlen
          omega
        simp only [dumps, encStr, List.cons_append, List.append_assoc, List.singleton_append]
        show (parseStrBody f (escBody s ++ '"' :: rest)).map (fun p => (Json.str p.1, p.2))
          = some (Json.str s, rest)
        rw [parseStrBody_escBody f s rest hwfs hslen]
        rfl
      | arr es =>
        cases es with
        | nil => rfl
        | cons e es2 =>
          have hwfe : jwfElems (e :: es2) = true := by simpa [jwf] using hwf
          have hlenq : (dumpsElems (e :: es2)).length < f := by
            simp only [dumps, List.length_cons] at hlen
            omega
          obtain ⟨c0, t0, hc0, hws0, hne0⟩ := dumpsElems_shape (e :: es2) (by simp)
          simp only [dumps, List.cons_append]
          rw [parseVal_cons f '[' (dumpsElems (e :: es2) ++ rest) (by decide),
            if_neg (by decide), if_neg (by decide), if_neg (by decide), if_neg (by decide),
            if_pos rfl]
          have hsk : skipWs (dumpsElems (e :: es2) ++ rest) = c0 :: (t0 ++ rest) := by
            rw [hc0, List.cons_append, skipWs_cons_not _ hws0]
          rw [hsk]
          show (if c0 = ']' then some (Json.arr [], t0 ++ rest)
            else (parseElems f (dumpsElems (e :: es2) ++ rest)).map
              (fun p => (Json.arr p.1, p.2)))
            = some (Json.arr (e :: es2), rest)
          rw [if_neg hne0, ihQ (e :: es2) rest (by simp) hwfe hlenq]
          rfl
      | obj fs =>
        cases fs with
        | nil => rfl
        | cons kv fs2 =>
          obtain ⟨k, v⟩ := kv
          have hwff : jwfFields ((k, v) :: fs2) = true := by simpa [jwf] using hwf
          have hlenr : (dumpsFields ((k, v) :: fs2)).length < f := by
            simp only [dumps, List.length_cons] at hlen
            omega
          obtain ⟨t0, ht0⟩ := dumpsFields_shape ((k, v) :: fs2) (by simp)
          simp only [dumps, List.cons_append]
          rw [parseVal_cons f lbrace (dumpsFields ((k, v) :: fs2) ++ rest) (by decide),
            if_neg (by decide), if_neg (by decide), if_neg (by decide), if_neg (by decide),
            if_neg (by decide), if_pos rfl]
          have hsk : skipWs (dumpsFields ((k, v) :: fs2) ++ rest) = '"' :: (t0 ++ rest) := by
            rw [ht0, List.cons_append, skipWs_cons_not _ (by decide)]
          rw [hsk]
          show (if ('"' : Char) = rbrace then some (Json.obj [], t0 ++ rest)
            else (parseFields f (dumpsFields ((k, v) :: fs2) ++ rest)).map
              (fun p => (Json.obj p.1, p.2)))
            = some (Json.obj ((k, v) :: fs2), rest)
          rw [if_neg (by decide), ihR ((k, v) :: fs2) rest (by simp) hwff hlenr]
          rfl
    · intro es rest hne hwf hlen
      cases es with
      | nil => exact absurd rfl hne
      | cons e es2 =>
        have hwfe : jwf e = true ∧ jwfElems es2 = true := by
          simpa [jwfElems, Bool.and_eq_true] using hwf
        cases es2 with
        | nil =>
          have hlene : (dumps e).length < f := by
            simp only [dumpsElems, List.length_append, List.length_singleton] at hlen
            omega
          rw [parseElems]
          simp only [dumpsElems, List.append_assoc, List.singleton_append]
          rw [ihP e (']' :: rest) hwfe.1 ⟨by decide, by decide⟩ hlene]
          rfl
        | cons e2 es3 =>
          have hlene : (dumps e).length < f ∧ (dumpsElems (e2 :: es3)).length < f := by
            simp only [dumpsElems, List.length_append, List.length_cons] at hlen
            constructor <;> omega
          rw [parseElems]
          simp only [dumpsElems, List.append_assoc, List.cons_append]
          rw [ihP e (',' :: ' ' :: (dumpsElems (e2 :: es3) ++ rest)) hwfe.1
            ⟨by decide, by decide⟩ hlene.1]
          show (parseElems f (' ' :: (dumpsElems (e2 :: es3) ++ rest))).map
              (fun p => (e :: p.1, p.2)) = some (e :: e2 :: es3, rest)
          rw [parseElems_sp, ihQ (e2 :: es3) rest (by simp) hwfe.2 hlene.2]
          rfl
    · intro fs rest hne hwf hlen
      cases fs with
      | nil => exact absurd rfl hne
      | cons kv fs2 =>
        obtain ⟨k, v⟩ := kv
        have hwfs : strWf k = true ∧ jwf v = true ∧ jwfFields fs2 = true := by
          simpa [jwfFields, Bool.and_eq_true, and_assoc] using hwf
        cases fs2 with
        | nil =>
          have hklen : k.length < f := by
            have := escBody_len k
            simp only [dumpsFields, encStr, List.length_append, List.length_cons,
              List.length_singleton] at hlen
            omega
          have hvlen : (dumps v).length < f := by
            simp only [dumpsFields, encStr, List.length_append, List.length_cons,
              List.length_singleton] at hlen
            omega
          simp only [dumpsFields, encStr, List.cons_append, List.append_assoc,
            List.singleton_append]
          rw [parseFields_quote, parseStrBody_escBody f k _ hwfs.1 hklen]
          show (match parseVal f (' ' :: (dumps v ++ rbrace :: rest)) with
            | none => none
            | some (v2, r4) =>
              match skipWs r4 with
              | [] => none
              | e2 :: r5 =>
                if e2 = ',' then (parseFields f r5).map (fun p => ((k, v2) :: p.1, p.2))
                else if e2 = rbrace then some ([(k, v2)], r5)
                else none) = some ([(k, v)], rest)
          rw [parseVal_sp, ihP v (rbrace :: rest) hwfs.2.1 ⟨by decide, by decide⟩ hvlen]
          rfl
        | cons kv2 fs3 =>
          have hklen : k.length < f := by
            have := escBody_len k
            simp only [dumpsFields, encStr, List.length_append, List.length_cons,
              List.length_singleton] at hlen
            omega
          have hvlen : (dumps v).length < f := by
            simp only [dumpsFields, encStr, List.length_append, List.length_cons,
              List.length_singleton] at hlen
            omega
          have hrlen : (dumpsFields (kv2 :: fs3)).length < f := by
            simp only [dumpsFields, encStr, List.length_append, List.length_cons,
              List.length_singleton] at hlen
            omega
          simp only [dumpsFields, encStr, List.cons_append, List.append_assoc,
            List.singleton_append]
          rw [parseFields_quote, parseStrBody_escBody f k _ hwfs.1 hklen]
          show (match parseVal f
              (' ' :: (dumps v ++ ',' :: ' ' :: (dumpsFields (kv2 :: fs3) ++ rest))) with
            | none => none
            | some (v2, r4) =>
              match skipWs r4 with
              | [] => none
              | e2 :: r5 =>
                if e2 = ',' then (parseFields f r5).map (fun p => ((k, v2) :: p.1, p.2))
                else if e2 = rbrace then some ([(k, v2)], r5)
                else none) = some ((k, v) :: kv2 :: fs3, rest)
          rw [parseVal_sp, ihP v (',' :: ' ' :: (dumpsFields (kv2 :: fs3) ++ rest)) hwfs.2.1
            ⟨by decide, by decide⟩ hvlen]
          show (parseFields f (' ' :: (dumpsFields (kv2 :: fs3) ++ rest))).map
              (fun p => ((k, v) :: p.1, p.2)) = some ((k, v) :: kv2 :: fs3, rest)
          rw [parseFields_sp, ihR (kv2 :: fs3) rest (by simp) hwfs.2.2 hrlen]
          rfl

/-- The decoder recovers any well-formed value from its encoding. -/
theorem loads_dumps (v : Json) (h : jwf v = true) : loads (dumps v) = some v := by
  have hP := (parse_dumps_all (2 * (dumps v).length + 2)).1 v [] h trivial (by omega)
  rw [List.append_nil] at hP
  rw [loads, hP]
  rfl

/-! ### Substring search facts -/

lemma isPre_app_self (pat rest : Str) : isPre pat (pat ++ rest) = true := by
  induction pat with
  | nil => rfl
  | cons c t ih => simp [isPre, ih]

lemma findSub_app_self (pat b : Str) : findSub pat (pat ++ b) = some 0 := by
  cases hp : pat ++ b with
  | nil =>
    have hpe : pat = [] := (List.append_eq_nil.mp hp).1
    simp [findSub, hpe]
  | cons c r =>
    rw [findSub, ← hp, isPre_app_self]
    simp

lemma containsSub_app_middle (pat a b : Str) : containsSub pat (a ++ (pat ++ b)) = true := by
  induction a with
  | nil => simp [containsSub, findSub_app_self]
  | cons c a2 ih =>
    show (findSub pat (c :: (a2 ++ (pat ++ b)))).isSome = true
    rw [findSub]
    by_cases hp : isPre pat (c :: (a2 ++ (pat ++ b))) = true
    · rw [if_pos hp]
      rfl
    · rw [if_neg hp]
      simpa [containsSub] using ih

lemma containsSub_of_findSub {pat s : Str} {i : Nat} (h : findSub pat s = some i) :
    containsSub pat s = true := by
  simp [containsSub, h]

lemma pySlice_middle (a S m E b : Str) :
    pySlice (a ++ S ++ m ++ E ++ b) (a.length + S.length) (a.length + S.length + m.length)
      = m := by
  rw [pySlice]
  have h1 : a ++ S ++ m ++ E ++ b = (a ++ S) ++ (m ++ (E ++ b)) := by
    simp [List.append_assoc]
  have h2 : a.length + S.length = (a ++ S).length := by simp
  rw [h1, h2, List.drop_left,
    show (a ++ S).length + m.length - (a ++ S).length = m.length by omega, List.take_left]

/-! ### Model of tests/ntest.py -/

/-- The start marker printed by the wrapper in `tests/ntest.py`. -/
def ansStartMark : Str := "__ANSWER_START__".data

/-- The end marker printed by the wrapper in `tests/ntest.py`. -/
def ansEndMark : Str := "__ANSWER_END__".data

/-- The error marker printed by the wrapper when no `answer` variable was
produced. -/
def errMark : Str := "__ERROR__".data

/-- The dictionary returned by `executeCode` in `tests/ntest.py`,
with the keys `error`, `answer` and `stdout`; `none` models an absent
key or the Python value `None`. -/
structure NtestRes where
  error : Option Str
  answer : Option Json
  stdout : Option Str
deriving Repr

/-- Modelled message of the `KeyError` raised when the decoded JSON
object has no `answer` key, caught by the outer `except Exception`. -/
def ntestKeyErrorMsg : Str := "Execution error: \x27answer\x27".data

/-- Modelled message of the `TypeError` raised when the decoded JSON
value is not an object, caught by the outer `except Exception`. -/
def ntestTypeErrorMsg : Str := "Execution error: TypeError".data

/-- Model of the result classification in `executeCode` of
`tests/ntest.py`, the code that runs after `subprocess.run` returns: a
non-zero exit code yields the stripped stderr as the error; stdout
containing `__ERROR__` yields the missing-answer error; stdout containing
both sentinel markers is sliced between the first occurrence of each
marker with `str.find`, stripped, and JSON decoded, a decode failure
yielding the parse error; any other stdout is returned as a success whose
answer is the stripped stdout itself.  Accessing a missing `answer` key
raises and is caught by the surrounding `except Exception`, modelled by
the two modelled error messages. -/
def ntest_classify (rc : Int) (stdout stderr : Str) : NtestRes :=
  if rc ≠ 0 then
    { error := some (pyStrip stderr), answer := none, stdout := some stdout }
  else if containsSub errMark stdout then
    { error := some "Code did not produce an \x27answer\x27 variable".data, answer := none,
      stdout := some stdout }
  else if containsSub ansStartMark stdout && containsSub ansEndMark stdout then
    let start := (findSub ansStartMark stdout).getD 0 + ansStartMark.length
    let stop := (findSub ansEndMark stdout).getD 0
    let answerJson := pyStrip (pySlice stdout start stop)
    match loads answerJson with
    | some (Json.obj fields) =>
      match objGetLast fields "answer".data with
      | some v => { error := none, answer := some v, stdout := some stdout }
      | none => { error := some ntestKeyErrorMsg, answer := none, stdout := none }
    | some _ => { error := some ntestTypeErrorMsg, answer := none, stdout := none }
    | none =>
      { error := some "Failed to parse answer".data, answer := none, stdout := some stdout }
  else
    { error := none, answer := some (Json.str (pyStrip stdout)), stdout := some stdout }

/-- Behaviour of one `pip install` subprocess in `tests/ntest.py`, as an
oracle outcome: normal success, non-zero exit with captured stderr, a
`TimeoutExpired`, or any other exception. -/
inductive InstallStep where
  | ok
  | failed (stderrText : Str)
  | timedOut
  | raised (msg : Str)
deriving DecidableEq

/-- The loop of `install_dependencies` in `tests/ntest.py`: installs run
in input order; the first non-zero exit returns `False` aborting the
remainder; a timeout or another exception propagates to the surrounding
handlers which also return `False`.  Returns the Python result together
with the number of installs attempted. -/
def installGo (step : Nat → InstallStep) : Nat → List Str → Bool × Nat
  | i, [] => (true, i)
  | i, _ :: ds =>
    match step i with
    | .ok => installGo step (i + 1) ds
    | .failed _ => (false, i + 1)
    | .timedOut => (false, i + 1)
    | .raised _ => (false, i + 1)

/-- Model of `install_dependencies` in `tests/ntest.py`, including its
initial empty-list short circuit. -/
def install_dependencies (step : Nat → InstallStep) (deps : List Str) : Bool × Nat :=
  if deps.isEmpty then (true, 0) else installGo step 0 deps

/-- Behaviour of the program subprocess in `tests/ntest.py`, as an oracle
outcome: completion with exit code and streams, `TimeoutExpired` carrying
whatever partial output was captured, or another exception. -/
inductive RunStep where
  | completed (rc : Int) (stdout stderr : Str)
  | timedOut (partialOut partialErr : Str)
  | raised (msg : Str)

/-- Execution trace of the `executeCode` model of `tests/ntest.py`. -/
structure NtestTrace where
  res : NtestRes
  installsAttempted : Nat
  fileCreated : Bool
  fileRemoved : Bool
  ranChild : Bool
  childKilled : Bool
deriving Repr

/-- The timeout error message of `executeCode` in `tests/ntest.py`. -/
def ntestTimeoutMsg (t : Nat) : Str :=
  "Code execution timed out after ".data ++ natDigits t ++ " seconds".data

/-- Model of `executeCode` in `tests/ntest.py`.  The pip subprocesses and
the program subprocess are oracles (`inst`, `run`).  A failed install
returns the dependency error without creating the temporary file or
running the program.  Otherwise the program file is created and run;
`run = timedOut` models `subprocess.run` raising `TimeoutExpired` after
waiting at most `timeout` seconds, in which case CPython `subprocess.run`
has killed the child before raising, and the code ignores the captured
partial output; the `os.unlink` cleanup runs in the normal path and in
both `except` handlers. -/
def ntest_executeCode (inst : Nat → InstallStep) (run : RunStep) (deps : List Str)
    (timeout : Nat) : NtestTrace :=
  if deps ≠ [] ∧ (install_dependencies inst deps).1 = false then
    { res :=
        { error := some "Failed to install required dependencies".data, answer := none,
          stdout := none },
      installsAttempted := (install_dependencies inst deps).2,
      fileCreated := false, fileRemoved := false, ranChild := false, childKilled := false }
  else
    let attempted := (install_dependencies inst deps).2
    match run with
    | .completed rc out err =>
      { res := ntest_classify rc out err, installsAttempted := attempted,
        fileCreated := true, fileRemoved := true, ranChild := true, childKilled := false }
    | .timedOut _ _ =>
      { res :=
          { error := some (ntestTimeoutMsg timeout), answer := none, stdout := none },
        installsAttempted := attempted, fileCreated := true, fileRemoved := true,
        ranChild := true, childKilled := true }
    | .raised m =>
      { res :=
          { error := some ("Execution error: ".data ++ m), answer := none, stdout := none },
        installsAttempted := attempted, fileCreated := true, fileRemoved := true,
        ranChild := true, childKilled := false }

/-- The `PROMPT` literal of `tests/ntest.py`. -/
def ntestPrompt : Str :=
  "\nWrite a Python program that accomplishes the task described below.\n".data
  ++ "\nCRITICAL REQUIREMENTS:\n".data
  ++ "1. The program MUST store its final result in a variable called \x27answer\x27\n".data
  ++ "2. The \x27answer\x27 variable should contain:\n".data
  ++ "   - A number (int/float) for calculations\n".data
  ++ "   - A string for text results\n".data
  ++ "   - A dict/list for structured data\n".data
  ++ "   - A base64 data URI string for visualizations (e.g., \"data:image/png;base64,...\")\n".data
  ++ "3. Import ALL required libraries at the top\n".data
  ++ "4. Handle errors gracefully with try-except blocks\n".data
  ++ "5. Do NOT use input() or any interactive elements\n".data
  ++ "6. Do NOT print anything except via the \x27answer\x27 variable\n".data
  ++ "\nExample structure:\n```\n".data
  ++ "import requests\nimport pandas as pd\n".data
  ++ "\n\x23 Your code here\n".data
  ++ "data = requests.get(url).text\ndf = pd.read_csv(...)\n".data
  ++ "result = df[\x27column\x27].sum()\n".data
  ++ "\n\x23 MUST have this:\nanswer = result\n```\n".data
  ++ "\nReturn a valid JSON object with this structure:\n\x7b\n".data
  ++ "  \"program\": \"<the complete Python code as a string>\",\n".data
  ++ "  \"dependencies\": [\"package1\", \"package2\"]\n\x7d\n".data
  ++ "\nUse exact pip package names (e.g., \"beautifulsoup4\" not \"bs4\", \"pillow\" not \"PIL\").\n".data

/-- The contents string sent by `generateCode` in `tests/ntest.py`:
`request + "\n\n" + PROMPT`. -/
def ntestGenerateRequest (request : Str) : Str := request ++ "\n\n".data ++ ntestPrompt

/-- The `retry_prompt` f-string built by `regenerateCode` in
`tests/ntest.py`, which interpolates the original task, the failing
program text, the diagnostic, and the base prompt. -/
def ntestRetryPrompt (request failedCode diag : Str) : Str :=
  "\nThe following code failed to execute. Fix the errors and generate corrected code.\n\nOriginal task:\n".data
  ++ request
  ++ "\n\nFailed code:\n```python\n".data
  ++ failedCode
  ++ "\n```\n\nError message:\n".data
  ++ diag
  ++ ("\n\nGenerate corrected code following the same format as before.\nMake sure to:\n".data
    ++ "1. Fix the specific error mentioned\n2. Add proper error handling\n".data
    ++ "3. Ensure the \x27answer\x27 variable is set\n4. Include all necessary imports\n\n".data)
  ++ ntestPrompt
  ++ "\n".data

/-- One request sent to the generation collaborator, as recorded in a
trace of `solve_with_retry`: its contents and, for a retry, the failing
program and diagnostic it was built from. -/
structure GenRequest where
  content : Str
  isRetry : Bool
  prevCode : Str
  prevDiag : Str
deriving Repr

/-- Trace of one `solve_with_retry` run: the final result dictionary,
how many generation calls were made, the final retry counter, and the
requests sent to the model in order. -/
structure SolveTrace where
  res : NtestRes
  genCalls : Nat
  retries : Nat
  requests : List GenRequest
deriving Repr

/-- Python truthiness of `result.get("error")`: `None` and the empty
string are falsy. -/
def pyTruthy (o : Option Str) : Bool :=
  match o with
  | none => false
  | some s => !s.isEmpty

/-- The `while` loop of `solve_with_retry` in `tests/ntest.py`.
Generation results per call index and execution results per attempt
index are oracles (`gen`, `ex`).  The loop guard is the code's own
`result.get("error") and retry_count < max_retries`; the fuel argument
equals `maxR - rc` at every call and only serves structural
termination. -/
def solveLoop (gen : Nat → Str × List Str) (ex : Nat → NtestRes) (prompt : Str) (maxR : Nat) :
    Nat → Nat → Str → NtestRes → List GenRequest → Nat → SolveTrace
  | 0, rc, _, result, reqs, gcalls =>
    { res := result, genCalls := gcalls, retries := rc, requests := reqs }
  | fuel + 1, rc, code, result, reqs, gcalls =>
    if pyTruthy result.error = true ∧ rc < maxR then
      let diag := result.error.getD []
      let rc2 := rc + 1
      let req : GenRequest :=
        { content := ntestRetryPrompt prompt code diag, isRetry := true,
          prevCode := code, prevDiag := diag }
      let g := gen rc2
      if g.1 = [] then
        { res :=
            { error := some "Failed to regenerate code".data, answer := none, stdout := none },
          genCalls := gcalls + 1, retries := rc2, requests := reqs ++ [req] }
      else
        solveLoop gen ex prompt maxR fuel rc2 g.1 (ex rc2) (reqs ++ [req]) (gcalls + 1)
    else
      { res := result, genCalls := gcalls, retries := rc, requests := reqs }

/-- Model of `solve_with_retry` in `tests/ntest.py` for one enhanced
prompt: the first generation call, the first execution, then the retry
loop.  An empty extracted program aborts with the corresponding error
before any execution, exactly as `if not code:` does. -/
def ntest_solve_with_retry (gen : Nat → Str × List Str) (ex : Nat → NtestRes)
    (prompt : Str) (maxR : Nat) : SolveTrace :=
  let req0 : GenRequest :=
    { content := ntestGenerateRequest prompt, isRetry := false, prevCode := [], prevDiag := [] }
  let g0 := gen 0
  if g0.1 = [] then
    { res := { error := some "Failed to generate code".data, answer := none, stdout := none },
      genCalls := 1, retries := 0, requests := [req0] }
  else
    solveLoop gen ex prompt maxR maxR 0 g0.1 (ex 0) [req0] 1

/-! ### Model of main.py -/

/-- The start sentinel of the result contract in `main.py`. -/
def finalStartMark : Str := "FINAL_OUTPUT_START".data

/-- The end sentinel of the result contract in `main.py`. -/
def finalEndMark : Str := "FINAL_OUTPUT_END".data

/-- Truthiness of the `CompletedProcess` object tested by
`if not result:` in `main.py`: an object with neither `__bool__` nor
`__len__` is always truthy, so the test is always false. -/
def pyFalsyCompleted : Bool := false

/-- Scanner for
`re.search(r"FINAL_OUTPUT_START\s*(.*?)\s*FINAL_OUTPUT_END", stdout, re.S)`
followed by `.group(1).strip()`: the match starts at the leftmost
occurrence of the start marker after which an end marker still occurs,
spans to the first such end marker, and the captured group is stripped
(the `\s*` trimming of the pattern composes with the final `.strip()`
into one strip of the text between the markers). -/
def mainBlockGo : Nat → Str → Option Str
  | 0, _ => none
  | fuel + 1, t =>
    if isPre finalStartMark t then
      match findSub finalEndMark (t.drop finalStartMark.length) with
      | some j => some (pyStrip ((t.drop finalStartMark.length).take j))
      | none =>
        match t with
        | [] => none
        | _ :: t2 => mainBlockGo fuel t2
    else
      match t with
      | [] => none
      | _ :: t2 => mainBlockGo fuel t2

/-- The sentinel-block matcher of `executeCode` in `main.py`. -/
def mainMatchBlock (s : Str) : Option Str := mainBlockGo (s.length + 1) s

/-- Behaviour of one `uv add` subprocess run with `check=True` in
`main.py`: normal completion, a `CalledProcessError` (non-zero exit),
or any other raised exception — for example the `FileNotFoundError`
raised when the `uv` executable is absent — which `main.py` does not
catch. -/
inductive MainInstall where
  | ok (out : Str)
  | calledProcessError (msg stderrText : Str)
  | raised (msg : Str)
deriving DecidableEq

/-- The install loop of `executeCode` in `main.py`: the first
`CalledProcessError` aborts the remaining installs by leaving the loop;
it is caught and printed by the surrounding handler, after which
execution proceeds regardless.  Any other exception also aborts the
loop but is caught by nothing and escapes `executeCode`.  Returns the
number of installs attempted and the uncaught exception message, if
any. -/
def mainInstallGo (inst : Nat → MainInstall) : Nat → List Str → Nat × Option Str
  | i, [] => (i, none)
  | i, _ :: ds =>
    match inst i with
    | .ok _ => mainInstallGo inst (i + 1) ds
    | .calledProcessError _ _ => (i + 1, none)
    | .raised msg => (i + 1, some msg)

/-- Behaviour of the program subprocess in `main.py`, which is run by
`subprocess.run` with no `timeout` argument: it either completes, or
never terminates, in which case `executeCode` blocks forever. -/
inductive MainRun where
  | completed (rc : Int) (stdout stderr : Str)
  | hangs

/-- Execution trace of the `executeCode` model of `main.py`: the
returned dictionary (`none` when the call never returns — the child
hangs, or an install exception escapes), the escaped exception message
if any, the number of installs attempted, and the file and process
effects. -/
structure MainTrace where
  ret : Option (List (String × Str))
  raisedMsg : Option Str
  installsAttempted : Nat
  fileCreated : Bool
  fileRemoved : Bool
  ranChild : Bool
deriving Repr

/-- The result classification of `executeCode` in `main.py` after the
child completes: stdout and stderr are stripped, the always-false
`if not result:` branch is dead, a non-zero exit code yields the error
dictionary, a sentinel-block match yields its stripped content as the
output, and otherwise the whole stripped stdout is the output. -/
def main_classify (rc : Int) (out err : Str) : List (String × Str) :=
  let stdout := pyStrip out
  let stderr := pyStrip err
  if pyFalsyCompleted then
    [("Error", "While executing the code, no result was returned.".data)]
  else if rc ≠ 0 then
    [("error", "error: ".data ++ stderr)]
  else
    match mainMatchBlock stdout with
    | some ans => [("output", ans)]
    | none => [("output", stdout)]

/-- Model of `executeCode` in `main.py`.  The `uv add` loop runs inside
one `try` with `check=True`; a `CalledProcessError` is caught and
execution proceeds anyway, while any other install exception escapes
the function before the temporary file exists (`ret = none`, message in
`raisedMsg`).  Otherwise the program is materialized into a
`NamedTemporaryFile(delete=False)` and run with no timeout: a
non-terminating child blocks the call forever (`ret = none`).  No code
path removes the temporary file.  A completed child is classified by
`main_classify`. -/
def main_executeCode (inst : Nat → MainInstall) (run : MainRun) (code : Str)
    (deps : List Str) : MainTrace :=
  let instRes := mainInstallGo inst 0 deps
  match instRes.2 with
  | some msg =>
    { ret := none, raisedMsg := some msg, installsAttempted := instRes.1,
      fileCreated := false, fileRemoved := false, ranChild := false }
  | none =>
    match run with
    | .hangs =>
      { ret := none, raisedMsg := none, installsAttempted := instRes.1,
        fileCreated := true, fileRemoved := false, ranChild := true }
    | .completed rc out err =>
      { ret := some (main_classify rc out err), raisedMsg := none,
        installsAttempted := instRes.1, fileCreated := true, fileRemoved := false,
        ranChild := true }

/-- The contents string that `promptGenerator` in `main.py` sends to its
model: the f-string contains no interpolation site, so the `question`
parameter never enters it. -/
def main_promptGenerator_content (question : Str) : Str :=
  ("\n            You are a html reading agent. You will be given the html content of a quiz webpage.\n".data
    ++ "            Your task is to read the content and extract the following information:\n".data
    ++ "            1. Task described in the quiz.\n".data
    ++ "            2. \n            ".data)

/-! ### The program extractor of main.py -/

/-- Lowercase an ASCII letter, for the `re.IGNORECASE` comparison. -/
def lowerAscii (c : Char) : Char :=
  if 65 ≤ c.toNat && c.toNat ≤ 90 then Char.ofNat (c.toNat + 32) else c

/-- Case-insensitive prefix test for an all-lowercase pattern. -/
def isPreCI (pat s : Str) : Bool := isPre pat (s.map lowerAscii)

/-- Length of a match of `` ^```(?:json|python)?\s* `` at the current
position, if any: three backticks, an optional case-insensitive tag, and
a maximal whitespace run (which may span line breaks, as `\s` does).
`main.py` uses the tag alternations `json|python` and `python|json` in
its two substitutions; the two orders accept the same strings because
neither tag is a prefix of the other. -/
def matchOpenFence (t : Str) : Option Nat :=
  if isPre "```".data t then
    let r1 := t.drop 3
    let tagLen := if isPreCI "json".data r1 then 4 else if isPreCI "python".data r1 then 6 else 0
    let r2 := r1.drop tagLen
    some (3 + tagLen + (r2.takeWhile pySpace).length)
  else none

/-- Scanner of `re.sub` for the opening-fence pattern with
`re.MULTILINE`: at every line start of the original text a match is
deleted, and scanning resumes after the deleted span. -/
def subOpenGo : Nat → Bool → Str → Str
  | 0, _, t => t
  | fuel + 1, atStart, t =>
    match t with
    | [] => []
    | c :: t2 =>
      if atStart then
        match matchOpenFence t with
        | some k => subOpenGo fuel (decide ((t.take k).getLast? = some '\n')) (t.drop k)
        | none => c :: subOpenGo fuel (decide (c = '\n')) t2
      else c :: subOpenGo fuel (decide (c = '\n')) t2

/-- Model of `re.sub(r"^```(?:json|python)?\s*", "", s, flags=re.IGNORECASE | re.MULTILINE)`. -/
def subOpenFence (s : Str) : Str := subOpenGo (s.length + 1) true s

/-- Scanner of `re.sub(r"```$", "", s, flags=re.MULTILINE)`: three
backticks immediately before a line break or the end of the text are
deleted. -/
def subCloseGo : Nat → Str → Str
  | 0, t => t
  | fuel + 1, t =>
    match t with
    | [] => []
    | c :: t2 =>
      if isPre "```".data t && ((t.drop 3).isEmpty || decide ((t.drop 3).headD ' ' = '\n')) then
        subCloseGo fuel (t.drop 3)
      else c :: subCloseGo fuel t2

/-- Model of the closing-fence substitution of `main.py`. -/
def subCloseFence (s : Str) : Str := subCloseGo (s.length + 1) s

/-- The fence-removal stage of `extract_program` in `main.py`:
`strip`, remove opening fences, `strip`, remove closing fences. -/
def fenceStage (s : Str) : Str := subCloseFence (pyStrip (subOpenFence (pyStrip s)))

/-- Space-or-tab test used by `textwrap.dedent`. -/
def isIndentChar (c : Char) : Bool := c = ' ' || c = '\t'

/-- Leading space-or-tab run of a line that contains some other
character, as collected by the `_leading_whitespace_re` of
`textwrap.dedent`. -/
def lineIndent (l : Str) : Option Str :=
  if l.any (fun c => !isIndentChar c) then some (l.takeWhile isIndentChar) else none

/-- Longest common prefix of two strings. -/
def commonPre : Str → Str → Str
  | x :: xs, y :: ys => if x = y then x :: commonPre xs ys else []
  | _, _ => []

/-- Model of `textwrap.dedent`: lines of only spaces and tabs are
normalized to empty, the margin is the longest common leading
space-or-tab run of the remaining lines, and the margin is removed from
every line that starts with it. -/
def dedent (s : Str) : Str :=
  let lines := (s.splitOn '\n').map
    (fun l => if l ≠ [] && l.all isIndentChar then [] else l)
  let indents := lines.filterMap lineIndent
  let margin := match indents with
    | [] => []
    | i :: is => is.foldl commonPre i
  let lines2 :=
    if margin = [] then lines
    else lines.map (fun l => if isPre margin l then l.drop margin.length else l)
  List.intercalate ['\n'] lines2

/-- Model of `str.replace("\r\n", "\n")`: a left-to-right
non-overlapping replacement. -/
def crlfGo : Nat → Str → Str
  | 0, t => t
  | fuel + 1, t =>
    match t with
    | [] => []
    | '\r' :: '\n' :: t2 => '\n' :: crlfGo fuel t2
    | c :: t2 => c :: crlfGo fuel t2

/-- Normalize line endings as `extract_program` does. -/
def replaceCrlf (s : Str) : Str := crlfGo (s.length + 1) s

/-- Model of `str.strip("\n")`. -/
def stripNl (s : Str) : Str :=
  ((s.dropWhile (· = '\n')).reverse.dropWhile (· = '\n')).reverse

/-- Model of `str.lstrip()`. -/
def lstripWs (s : Str) : Str := s.dropWhile pySpace

/-- The cleaning stage applied to the extracted program text in
`extract_program` of `main.py`: strip and remove opening fences, strip
and remove closing fences, normalize CRLF line endings, dedent, strip
newlines at both ends, and strip leading whitespace.  The trailing
`ast.parse` is a tolerated best-effort syntax check with no effect on
the returned value. -/
def mainClean (p : Str) : Str :=
  lstripWs (stripNl (dedent (replaceCrlf (fenceStage p))))

/-- Result of `extract_program` in `main.py`; `crash` models the
uncaught exception raised when the decoded `program` field is not a
string (only `json.JSONDecodeError` is caught). -/
inductive Extracted where
  | ok (program : Str) (dependencies : List Json)
  | crash
deriving Repr

/-- Index of the first occurrence of a character. -/
def firstIdxOf (c : Char) (s : Str) : Option Nat := findSub [c] s

/-- Index of the last occurrence of a character. -/
def lastIdxOf (c : Char) (s : Str) : Option Nat :=
  (findSub [c] s.reverse).map (fun i => s.length - 1 - i)

/-- The span matched by the greedy regular expression `\{[\s\S]*\}` of
`main.py`: from the first left brace of the text to the last right brace
of the whole text, provided that right brace comes later.  This is a
greedy first-to-last span, not balanced-bracket matching. -/
def braceSpan (s : Str) : Option Str :=
  match firstIdxOf lbrace s, lastIdxOf rbrace s with
  | some i, some j => if i < j then some (pySlice s i (j + 1)) else none
  | _, _ => none

/-- Model of `extract_program` in `main.py`: remove fences, take the
greedy brace span, decode it as JSON (a decode failure returns the empty
program and empty dependencies), read the `program` and `dependencies`
fields with their defaults, drop a non-list `dependencies`, and clean
the program text.  A `program` field that is not a string makes the
Python function raise (`crash`); a span that decodes to a non-object is
impossible for a brace-delimited span but modelled as `crash` for the
same reason. -/
def main_extract_program (s : Str) : Extracted :=
  let t := fenceStage s
  match braceSpan t with
  | none => .ok [] []
  | some span =>
    match loads span with
    | none => .ok [] []
    | some (Json.obj fields) =>
      let deps := match objGetLast fields "dependencies".data with
        | some (Json.arr ds) => ds
        | some _ => []
        | none => []
      match objGetLast fields "program".data with
      | none => .ok (mainClean []) deps
      | some (Json.str p) => .ok (mainClean p) deps
      | some _ => .crash
    | some _ => .crash

example : ntest_classify 0 ("__ANSWER_START__\n\x7b\"answer\": 4\x7d\n__ANSWER_END__\n".data) []
    = { error := none, answer := some (Json.num 4),
        stdout := some ("__ANSWER_START__\n\x7b\"answer\": 4\x7d\n__ANSWER_END__\n".data) } := rfl

example : ntest_classify 0 "hello".data []
    = { error := none, answer := some (Json.str "hello".data),
        stdout := some "hello".data } := rfl

example : ntest_classify 1 "x".data " boom\n".data
    = { error := some "boom".data, answer := none, stdout := some "x".data } := rfl

example : main_extract_program
    "```json\n\x7b\"program\": \"x = 1\", \"dependencies\": []\x7d\n```".data
    = .ok "x = 1".data [] := rfl

example : main_extract_program
    ("Here is the solution: \x7b\"program\": \"x = 1\", \"dependencies\": []\x7d".data
      ++ " Note: use \x7bbraces\x7d carefully.".data)
    = .ok [] [] := rfl

example : mainMatchBlock "FINAL_OUTPUT_START\n42\nFINAL_OUTPUT_END".data = some "42".data := rfl

example : dedent "    a\n      b\n".data = "a\n  b\n".data := rfl

/-! ### Further substring facts -/

lemma containsSub_tail {pat : Str} {c : Char} {t : Str}
    (h : containsSub pat (c :: t) = false) : containsSub pat t = false := by
  rw [containsSub, findSub] at h
  by_cases hp : isPre pat (c :: t) = true
  · rw [if_pos hp] at h
    simp at h
  · rw [if_neg hp] at h
    simpa [containsSub] using h

lemma isPre_false_of_not_contains {pat : Str} {c : Char} {t : Str}
    (h : containsSub pat (c :: t) = false) : isPre pat (c :: t) = false := by
  by_contra hp
  have hp2 : isPre pat (c :: t) = true := by simpa using hp
  rw [containsSub, findSub, if_pos hp2] at h
  simp at h

lemma isPre_extend {pat s : Str} (b : Str) (h : isPre pat s = true) :
    isPre pat (s ++ b) = true := by
  induction pat generalizing s with
  | nil => rfl
  | cons c pat ih =>
    cases s with
    | nil => simp [isPre] at h
    | cons x xs =>
      simp only [isPre, Bool.and_eq_true] at h
      simp only [List.cons_append, isPre, Bool.and_eq_true]
      exact ⟨h.1, ih h.2⟩

lemma containsSub_self (pat : Str) : containsSub pat pat = true := by
  have h := findSub_app_self pat []
  rw [List.append_nil] at h
  simp [containsSub, h]

lemma containsSub_app_right (a : Str) {pat b : Str} (h : containsSub pat b = true) :
    containsSub pat (a ++ b) = true := by
  induction a with
  | nil => simpa using h
  | cons c a2 ih =>
    show (findSub pat (c :: (a2 ++ b))).isSome = true
    rw [findSub]
    by_cases hp : isPre pat (c :: (a2 ++ b)) = true
    · rw [if_pos hp]
      rfl
    · rw [if_neg hp]
      simpa [containsSub] using ih

lemma containsSub_app_left {pat a : Str} (b : Str) (h : containsSub pat a = true) :
    containsSub pat (a ++ b) = true := by
  induction a with
  | nil =>
    have hpat : pat = [] := by
      rw [containsSub, findSub] at h
      by_cases hp : pat = []
      · exact hp
      · rw [if_neg hp] at h
        simp at h
    subst hpat
    cases b <;> simp [containsSub, findSub, isPre]
  | cons c a2 ih =>
    show (findSub pat (c :: (a2 ++ b))).isSome = true
    rw [findSub]
    by_cases hp : isPre pat (c :: a2) = true
    · have : isPre pat (c :: (a2 ++ b)) = true := by
        have := isPre_extend b hp
        simpa using this
      rw [if_pos this]
      rfl
    · have h2 : containsSub pat a2 = true := by
        rw [containsSub, findSub] at h
        rw [if_neg hp] at h
        simpa [containsSub] using h
      by_cases hp2 : isPre pat (c :: (a2 ++ b)) = true
      · rw [if_pos hp2]
        rfl
      · rw [if_neg hp2]
        simpa [containsSub] using ih h2

lemma findSub_single_app (c : Char) (xs ys : Str) (h : ∀ x ∈ xs, x ≠ c) :
    findSub [c] (xs ++ c :: ys) = some xs.length := by
  induction xs with
  | nil => simp [findSub, isPre]
  | cons x xs2 ih =>
    have hx : x ≠ c := h x (by simp)
    have hcx : c ≠ x := Ne.symm hx
    rw [List.cons_append, findSub]
    have hp : isPre [c] (x :: (xs2 ++ c :: ys)) = false := by
      simp [isPre, hcx]
    rw [hp]
    simp only [Bool.false_eq_true, if_false]
    rw [ih (fun y hy => h y (by simp [hy]))]
    rfl

lemma pySlice_exact (a m b : Str) : pySlice (a ++ m ++ b) a.length (a.length + m.length) = m := by
  rw [pySlice]
  have h1 : a ++ m ++ b = a ++ (m ++ b) := by simp [List.append_assoc]
  rw [h1, List.drop_left, show a.length + m.length - a.length = m.length by omega,
    List.take_left]

lemma getD_mem {α : Type} (l : List α) (i : Nat) (d : α) (h : i < l.length) :
    l.getD i d ∈ l := by
  induction l generalizing i with
  | nil => simp at h
  | cons x xs ih =>
    cases i with
    | zero => simp [List.getD]
    | succ j =>
      have hj : j < xs.length := by simpa using h
      have : (x :: xs).getD (j + 1) d = xs.getD j d := by simp [List.getD]
      rw [this]
      exact List.mem_cons_of_mem x (ih j hj)

lemma mainBlockGo_none : ∀ fuel t, containsSub finalStartMark t = false →
    mainBlockGo fuel t = none := by
  intro fuel
  induction fuel with
  | zero => intro t _; rfl
  | succ f ih =>
    intro t h
    cases t with
    | nil => rfl
    | cons c t2 =>
      rw [mainBlockGo, isPre_false_of_not_contains h]
      simp only [Bool.false_eq_true, if_false]
      exact ih t2 (containsSub_tail h)

lemma findSub_eq_none {pat s : Str} (h : containsSub pat s = false) :
    findSub pat s = none := by
  rw [containsSub] at h
  cases hf : findSub pat s with
  | none => rfl
  | some v => rw [hf] at h; simp at h

lemma mainBlockGo_no_block : ∀ fuel t,
    (∀ i, i < t.length → isPre finalStartMark (t.drop i) = true →
      containsSub finalEndMark (t.drop (i + finalStartMark.length)) = false) →
    mainBlockGo fuel t = none := by
  intro fuel
  induction fuel with
  | zero => intro t _; rfl
  | succ f ih =>
    intro t h
    cases t with
    | nil => rfl
    | cons c t2 =>
      have htail : ∀ i, i < t2.length → isPre finalStartMark (t2.drop i) = true →
          containsSub finalEndMark (t2.drop (i + finalStartMark.length)) = false := by
        intro i hi hp
        have h2 := h (i + 1) (by simpa using hi) (by rw [List.drop_succ_cons]; exact hp)
        rw [show i + 1 + finalStartMark.length = i + finalStartMark.length + 1 by omega,
          List.drop_succ_cons] at h2
        exact h2
      rw [mainBlockGo]
      by_cases hp : isPre finalStartMark (c :: t2) = true
      · have hfe : containsSub finalEndMark ((c :: t2).drop (0 + finalStartMark.length))
            = false := h 0 (by simp) (by simpa using hp)
        have hfn : findSub finalEndMark ((c :: t2).drop finalStartMark.length) = none :=
          findSub_eq_none (by simpa using hfe)
        rw [if_pos hp, hfn]
        exact ih t2 htail
      · rw [if_neg hp]
        exact ih t2 htail

/-! ### Facts about the encoded object span -/

lemma dumpsFields_ends : ∀ fs : List (Str × Json), ∃ u, dumpsFields fs = u ++ [rbrace] := by
  intro fs
  induction fs with
  | nil => exact ⟨[], rfl⟩
  | cons kv fs ih =>
    obtain ⟨k, v⟩ := kv
    cases fs with
    | nil => exact ⟨encStr k ++ ':' :: ' ' :: dumps v, by simp [dumpsFields]⟩
    | cons kv2 fs2 =>
      obtain ⟨u, hu⟩ := ih
      exact ⟨encStr k ++ ':' :: ' ' :: dumps v ++ ',' :: ' ' :: u,
        by simp [dumpsFields, hu, List.append_assoc]⟩

lemma braceSpan_of_parts (pre post w : Str)
    (hpre : ∀ c ∈ pre, c ≠ lbrace) (hpost : ∀ c ∈ post, c ≠ rbrace) :
    braceSpan (pre ++ ((lbrace :: w) ++ [rbrace]) ++ post)
      = some ((lbrace :: w) ++ [rbrace]) := by
  have hshape : pre ++ ((lbrace :: w) ++ [rbrace]) ++ post
      = pre ++ (lbrace :: (w ++ [rbrace] ++ post)) := by
    simp [List.append_assoc]
  have hfirst : firstIdxOf lbrace (pre ++ ((lbrace :: w) ++ [rbrace]) ++ post)
      = some pre.length := by
    rw [firstIdxOf, hshape]
    have := findSub_single_app lbrace pre (w ++ [rbrace] ++ post) hpre
    simpa [List.append_assoc] using this
  have hrev : (pre ++ ((lbrace :: w) ++ [rbrace]) ++ post).reverse
      = post.reverse ++ (rbrace :: ((lbrace :: w).reverse ++ pre.reverse)) := by
    simp [List.reverse_append]
  have hlast : lastIdxOf rbrace (pre ++ ((lbrace :: w) ++ [rbrace]) ++ post)
      = some (pre.length + (w.length + 1)) := by
    rw [lastIdxOf, hrev]
    rw [findSub_single_app rbrace post.reverse ((lbrace :: w).reverse ++ pre.reverse)
      (fun x hx => hpost x (by simpa using hx))]
    have hlen : (pre ++ ((lbrace :: w) ++ [rbrace]) ++ post).length
        = pre.length + (w.length + 2) + post.length := by
      simp
      omega
    rw [Option.map_some', hlen, List.length_reverse]
    congr 1
    omega
  rw [braceSpan, hfirst, hlast]
  show (if pre.length < pre.length + (w.length + 1) then
      some (pySlice (pre ++ ((lbrace :: w) ++ [rbrace]) ++ post) pre.length
        (pre.length + (w.length + 1) + 1))
    else none) = some ((lbrace :: w) ++ [rbrace])
  rw [if_pos (by omega)]
  have hslice : pySlice (pre ++ ((lbrace :: w) ++ [rbrace]) ++ post) pre.length
      (pre.length + (w.length + 1) + 1) = (lbrace :: w) ++ [rbrace] := by
    have := pySlice_exact pre ((lbrace :: w) ++ [rbrace]) post
    have hlen2 : pre.length + ((lbrace :: w) ++ [rbrace]).length
        = pre.length + (w.length + 1) + 1 := by
      simp
      omega
    rw [hlen2] at this
    exact this
  rw [hslice]

/-! ### Install loop and retry loop invariants -/

lemma installGo_fail (inst : Nat → InstallStep) (e : Str) :
    ∀ (pre : List Str) (j : Nat) (d : Str) (post : List Str),
    (∀ i, i < pre.length → inst (j + i) = .ok) → inst (j + pre.length) = .failed e →
    installGo inst j (pre ++ d :: post) = (false, j + pre.length + 1) := by
  intro pre
  induction pre with
  | nil =>
    intro j d post _ hk
    have hk2 : inst j = .failed e := by simpa using hk
    rw [List.nil_append, installGo, hk2]
    simp
  | cons p pre ih =>
    intro j d post hpre hk
    have h0 : inst j = .ok := by simpa using hpre 0 (by simp)
    rw [List.cons_append, installGo, h0]
    have hk2 : inst (j + 1 + pre.length) = .failed e := by
      have harith : j + 1 + pre.length = j + (p :: pre).length := by
        rw [List.length_cons]
        omega
      rw [harith]
      exact hk
    have hrec := ih (j + 1) d post
      (fun i hi => by
        have := hpre (i + 1) (by simpa using Nat.succ_lt_succ hi)
        rwa [show j + (i + 1) = j + 1 + i by omega] at this)
      hk2
    rw [hrec, Prod.mk.injEq]
    refine ⟨rfl, ?_⟩
    rw [List.length_cons]
    omega

lemma solveLoop_bounds (gen : Nat → Str × List Str) (ex : Nat → NtestRes) (prompt : Str)
    (maxR : Nat) : ∀ (fuel rc : Nat) (code : Str) (result : NtestRes)
    (reqs : List GenRequest) (gcalls : Nat),
    (solveLoop gen ex prompt maxR fuel rc code result reqs gcalls).genCalls ≤ gcalls + fuel
    ∧ (solveLoop gen ex prompt maxR fuel rc code result reqs gcalls).retries ≤ rc + fuel
    ∧ (solveLoop gen ex prompt maxR fuel rc code result reqs gcalls).genCalls + rc
      = (solveLoop gen ex prompt maxR fuel rc code result reqs gcalls).retries + gcalls := by
  intro fuel
  induction fuel with
  | zero =>
    intro rc code result reqs gcalls
    rw [solveLoop]
    refine ⟨?_, ?_, ?_⟩ <;> simp <;> omega
  | succ f ih =>
    intro rc code result reqs gcalls
    rw [solveLoop]
    by_cases hg : pyTruthy result.error = true ∧ rc < maxR
    · rw [if_pos hg]
      by_cases hc : (gen (rc + 1)).1 = []
      · rw [if_pos hc]
        refine ⟨?_, ?_, ?_⟩ <;> simp <;> omega
      · rw [if_neg hc]
        obtain ⟨t1, t2, t3⟩ := ih (rc + 1) (gen (rc + 1)).1 (ex (rc + 1))
          (reqs ++ [⟨ntestRetryPrompt prompt code (result.error.getD []), true, code,
            result.error.getD []⟩]) (gcalls + 1)
        exact ⟨by omega, by omega, by omega⟩
    · rw [if_neg hg]
      refine ⟨?_, ?_, ?_⟩ <;> simp <;> omega

/-- The feedback property of one recorded generation request. -/
def requestHasFeedback (r : GenRequest) : Prop :=
  r.isRetry = true →
    containsSub r.prevCode r.content = true ∧ containsSub r.prevDiag r.content = true

lemma ntestRetryPrompt_contains (prompt code diag : Str) :
    containsSub code (ntestRetryPrompt prompt code diag) = true
    ∧ containsSub diag (ntestRetryPrompt prompt code diag) = true := by
  rw [ntestRetryPrompt]
  constructor
  · apply containsSub_app_left
    apply containsSub_app_left
    apply containsSub_app_left
    apply containsSub_app_left
    apply containsSub_app_left
    apply containsSub_app_right
    exact containsSub_self code
  · apply containsSub_app_left
    apply containsSub_app_left
    apply containsSub_app_left
    apply containsSub_app_right
    exact containsSub_self diag

lemma solveLoop_feedback (gen : Nat → Str × List Str) (ex : Nat → NtestRes) (prompt : Str)
    (maxR : Nat) : ∀ (fuel rc : Nat) (code : Str) (result : NtestRes)
    (reqs : List GenRequest) (gcalls : Nat),
    (∀ r ∈ reqs, requestHasFeedback r) →
    ∀ r ∈ (solveLoop gen ex prompt maxR fuel rc code result reqs gcalls).requests,
      requestHasFeedback r := by
  intro fuel
  induction fuel with
  | zero =>
    intro rc code result reqs gcalls hreqs
    rw [solveLoop]
    exact hreqs
  | succ f ih =>
    intro rc code result reqs gcalls hreqs
    rw [solveLoop]
    by_cases hg : pyTruthy result.error = true ∧ rc < maxR
    · rw [if_pos hg]
      have hnew : ∀ r ∈ reqs ++ [(⟨ntestRetryPrompt prompt code (result.error.getD []), true,
          code, result.error.getD []⟩ : GenRequest)], requestHasFeedback r := by
        intro r hr
        rcases List.mem_append.mp hr with hr | hr
        · exact hreqs r hr
        · simp only [List.mem_singleton] at hr
          subst hr
          intro _
          exact ntestRetryPrompt_contains prompt code (result.error.getD [])
      by_cases hc : (gen (rc + 1)).1 = []
      · rw [if_pos hc]
        exact hnew
      · rw [if_neg hc]
        exact ih (rc + 1) (gen (rc + 1)).1 (ex (rc + 1)) _ (gcalls + 1) hnew
    · rw [if_neg hg]
      exact hreqs

/-! ### The claims -/

/-- C9: the prompt-enrichment step of `main.py` ignores its input — for
any two question strings, `promptGenerator` builds the identical request
content for the generation collaborator, because the question parameter
is never interpolated into the f-string, so the enriched prompt carries
no information from the task description. -/
theorem main_promptGenerator_ignores_question (q1 q2 : Str) :
    main_promptGenerator_content q1 = main_promptGenerator_content q2 := rfl

/-- C10 (amended): `executeCode` in `main.py` returns normally with a
dictionary holding exactly one key, either `"output"` or `"error"` —
never both, never neither, and never the dead `"Error"` branch —
whenever the child process terminates and no install step raises an
exception other than `CalledProcessError`.  A `CalledProcessError` from
a failing install is caught inside the function, so the quantification
over the install oracle includes such failures.  A non-terminating
child blocks the call forever, and any other install exception escapes
the function uncaught; see the counterexample. -/
theorem main_executeCode_total (inst : Nat → MainInstall) (rc : Int) (out err code : Str)
    (deps : List Str) (hins : (mainInstallGo inst 0 deps).2 = none) :
    ∃ s, (main_executeCode inst (.completed rc out err) code deps).ret = some [("output", s)]
      ∨ (main_executeCode inst (.completed rc out err) code deps).ret = some [("error", s)] := by
  by_cases hrc : rc ≠ 0
  · exact ⟨"error: ".data ++ pyStrip err,
      Or.inr (by simp [main_executeCode, main_classify, pyFalsyCompleted, hins, hrc])⟩
  · cases hmb : mainMatchBlock (pyStrip out) with
    | some ans =>
      exact ⟨ans, Or.inl (by simp [main_executeCode, main_classify, pyFalsyCompleted,
        hins, hrc, hmb])⟩
    | none =>
      exact ⟨pyStrip out, Or.inl (by simp [main_executeCode, main_classify, pyFalsyCompleted,
        hins, hrc, hmb])⟩

/-- Witness for the amended totality theorem: a failing install raises
`CalledProcessError`, which is caught, and the completed child still
yields the one-key output dictionary. -/
theorem main_executeCode_total_witness :
    (mainInstallGo (fun _ => MainInstall.calledProcessError "exit 1".data "boom".data)
      0 ["pkg".data]).2 = none
    ∧ ∃ s, (main_executeCode
          (fun _ => MainInstall.calledProcessError "exit 1".data "boom".data)
          (.completed 0 "hi".data []) "x = 1".data ["pkg".data]).ret
        = some [("output", s)]
      ∨ (main_executeCode
          (fun _ => MainInstall.calledProcessError "exit 1".data "boom".data)
          (.completed 0 "hi".data []) "x = 1".data ["pkg".data]).ret
        = some [("error", s)] :=
  ⟨rfl, main_executeCode_total
    (fun _ => MainInstall.calledProcessError "exit 1".data "boom".data)
    0 "hi".data [] "x = 1".data ["pkg".data] rfl⟩

/-- C10 counterexample: `executeCode` in `main.py` does not return a
dictionary for every input.  An install step raising an exception other
than `CalledProcessError` — here the `FileNotFoundError` raised by
`subprocess.run` when the `uv` executable is absent — is not caught by
the `except subprocess.CalledProcessError` handler and escapes the
function, and a child that never terminates blocks the call forever
because `subprocess.run` is invoked with no timeout. -/
theorem main_executeCode_not_total :
    (main_executeCode
        (fun _ => .raised "FileNotFoundError: \x27uv\x27".data)
        (.completed 0 "ok".data []) "x = 1".data ["pkg".data]).ret = none
    ∧ (main_executeCode
        (fun _ => .raised "FileNotFoundError: \x27uv\x27".data)
        (.completed 0 "ok".data []) "x = 1".data ["pkg".data]).raisedMsg
      = some "FileNotFoundError: \x27uv\x27".data
    ∧ (main_executeCode (fun _ => .ok []) .hangs
        "import time\nwhile True: time.sleep(1)".data []).ret = none :=
  ⟨rfl, rfl, rfl⟩

/-- C1: the retry loop of `solve_with_retry` makes at most
`max_retries + 1` generation calls per task (the initial call plus at
most one per retry, so at most `maxAttempts` calls for the attempt bound
`maxAttempts = max_retries + 1`); the retry counter never exceeds
`max_retries` and increases by exactly one per generation call
(`genCalls = retries + 1`), and the loop terminates — the model is a
total function that leaves the loop as soon as the bound is reached or
the result carries no error. -/
theorem ntest_solve_with_retry_bound (gen : Nat → Str × List Str) (ex : Nat → NtestRes)
    (prompt : Str) (maxR : Nat) :
    (ntest_solve_with_retry gen ex prompt maxR).genCalls ≤ maxR + 1
    ∧ (ntest_solve_with_retry gen ex prompt maxR).retries ≤ maxR
    ∧ (ntest_solve_with_retry gen ex prompt maxR).genCalls
      = (ntest_solve_with_retry gen ex prompt maxR).retries + 1 := by
  rw [ntest_solve_with_retry]
  by_cases h0 : (gen 0).1 = []
  · rw [if_pos h0]
    refine ⟨?_, ?_, ?_⟩ <;> simp
  · rw [if_neg h0]
    obtain ⟨t1, t2, t3⟩ := solveLoop_bounds gen ex prompt maxR maxR 0 (gen 0).1 (ex 0)
      [⟨ntestGenerateRequest prompt, false, [], []⟩] 1
    exact ⟨by omega, by omega, by omega⟩

/-- The all-empty request record, used as the `getD` default. -/
def emptyGenRequest : GenRequest := ⟨[], false, [], []⟩

/-- C8: every retry request recorded by `solve_with_retry` contains both
the previous failing program text and the diagnostic string of its
failure as substrings of the request contents — the loop builds each
retry request through `regenerateCode`, whose prompt interpolates both,
so a retry never silently resubmits a prompt without this feedback. -/
theorem ntest_solve_with_retry_feedback (gen : Nat → Str × List Str) (ex : Nat → NtestRes)
    (prompt : Str) (maxR i : Nat)
    (hi : i < (ntest_solve_with_retry gen ex prompt maxR).requests.length)
    (hr : ((ntest_solve_with_retry gen ex prompt maxR).requests.getD i
      emptyGenRequest).isRetry = true) :
    containsSub
        ((ntest_solve_with_retry gen ex prompt maxR).requests.getD i emptyGenRequest).prevCode
        ((ntest_solve_with_retry gen ex prompt maxR).requests.getD i emptyGenRequest).content
      = true
    ∧ containsSub
        ((ntest_solve_with_retry gen ex prompt maxR).requests.getD i emptyGenRequest).prevDiag
        ((ntest_solve_with_retry gen ex prompt maxR).requests.getD i emptyGenRequest).content
      = true := by
  have hmem := getD_mem _ i emptyGenRequest hi
  have hfeed : ∀ r ∈ (ntest_solve_with_retry gen ex prompt maxR).requests,
      requestHasFeedback r := by
    rw [ntest_solve_with_retry]
    by_cases h0 : (gen 0).1 = []
    · rw [if_pos h0]
      intro r hr2
      simp only [List.mem_singleton] at hr2
      subst hr2
      intro hri
      simp at hri
    · rw [if_neg h0]
      apply solveLoop_feedback
      intro r hr2
      simp only [List.mem_singleton] at hr2
      subst hr2
      intro hri
      simp at hri
  exact hfeed _ hmem hr

/-- A sample generation oracle: every call extracts the one-character
program `c` with no dependencies. -/
def sampleGen (i : Nat) : Str × List Str := ("c".data, [])

/-- A sample execution oracle: the first attempt fails with a
diagnostic, the second succeeds. -/
def sampleEx (i : Nat) : NtestRes :=
  if i = 0 then ⟨some "boom".data, none, none⟩ else ⟨none, some (Json.num 1), none⟩

/-- Witness for the retry-feedback theorem at a concrete run with one
retry. -/
theorem ntest_solve_with_retry_feedback_witness :
    1 < (ntest_solve_with_retry sampleGen sampleEx "task".data 2).requests.length
    ∧ ((ntest_solve_with_retry sampleGen sampleEx "task".data 2).requests.getD 1
        emptyGenRequest).isRetry = true
    ∧ containsSub
        ((ntest_solve_with_retry sampleGen sampleEx "task".data 2).requests.getD 1
          emptyGenRequest).prevCode
        ((ntest_solve_with_retry sampleGen sampleEx "task".data 2).requests.getD 1
          emptyGenRequest).content = true
    ∧ containsSub
        ((ntest_solve_with_retry sampleGen sampleEx "task".data 2).requests.getD 1
          emptyGenRequest).prevDiag
        ((ntest_solve_with_retry sampleGen sampleEx "task".data 2).requests.getD 1
          emptyGenRequest).content = true :=
  ⟨by decide, by decide,
    (ntest_solve_with_retry_feedback sampleGen sampleEx "task".data 2 1
      (by decide) (by decide)).1,
    (ntest_solve_with_retry_feedback sampleGen sampleEx "task".data 2 1
      (by decide) (by decide)).2⟩

/-- C3 (amended): in the ntest runner, cleanup exactly matches creation:
the temporary file is removed precisely when it was created — normal
completion, non-zero exit, exception and timeout all remove it, and the
only path that does not remove it (dependency failure) never created
it.  In `main.py` the temporary artifact is never removed; see the
counterexample. -/
theorem ntest_executeCode_cleanup (inst : Nat → InstallStep) (run : RunStep)
    (deps : List Str) (t : Nat) :
    (ntest_executeCode inst run deps t).fileRemoved
      = (ntest_executeCode inst run deps t).fileCreated := by
  rw [ntest_executeCode]
  by_cases h : deps ≠ [] ∧ (install_dependencies inst deps).1 = false
  · rw [if_pos h]
  · rw [if_neg h]
    cases run <;> rfl

/-- C3 counterexample: in `main.py`, a successful execution creates the
temporary file and no exit path removes it — `NamedTemporaryFile` is
opened with `delete=False` and `os.unlink` is never called — so cleanup
is not unconditional. -/
theorem main_executeCode_leaves_tempfile :
    (main_executeCode (fun _ => .ok []) (.completed 0 "out".data []) "x = 1".data
        []).fileCreated = true
    ∧ (main_executeCode (fun _ => .ok []) (.completed 0 "out".data []) "x = 1".data
        []).fileRemoved = false := ⟨rfl, rfl⟩

/-- C4 (amended): the ntest runner passes its wall-clock timeout to
`subprocess.run`; when the run raises `TimeoutExpired` — having waited
at most the timeout and killed the child before raising — the outcome
is always the timeout error with no answer, regardless of whatever
partial output the child produced, and the temporary file is still
removed.  `main.py` passes no timeout at all; see the counterexample. -/
theorem ntest_executeCode_timeout (inst : Nat → InstallStep) (deps : List Str) (t : Nat)
    (po pe : Str) (h : deps = [] ∨ (install_dependencies inst deps).1 = true) :
    (ntest_executeCode inst (.timedOut po pe) deps t).res
        = { error := some (ntestTimeoutMsg t), answer := none, stdout := none }
    ∧ (ntest_executeCode inst (.timedOut po pe) deps t).childKilled = true
    ∧ (ntest_executeCode inst (.timedOut po pe) deps t).fileRemoved = true := by
  have hcond : ¬ (deps ≠ [] ∧ (install_dependencies inst deps).1 = false) := by
    rcases h with h | h
    · intro hc
      exact hc.1 h
    · intro hc
      rw [h] at hc
      exact absurd hc.2 (by simp)
  rw [ntest_executeCode, if_neg hcond]
  exact ⟨rfl, rfl, rfl⟩

/-- Witness for the timeout theorem at a concrete run. -/
theorem ntest_executeCode_timeout_witness :
    (([] : List Str) = [] ∨ (install_dependencies (fun _ => .ok) []).1 = true)
    ∧ (ntest_executeCode (fun _ => .ok) (.timedOut "partial junk".data []) [] 120).res
      = { error := some (ntestTimeoutMsg 120), answer := none, stdout := none } :=
  ⟨Or.inl rfl,
    (ntest_executeCode_timeout (fun _ => .ok) [] 120 "partial junk".data [] (Or.inl rfl)).1⟩

/-- C4 counterexample: `executeCode` in `main.py` invokes
`subprocess.run` with no timeout argument, so with a child that never
terminates the call never returns — there is no wall-clock bound, no
forcible termination and no timeout classification. -/
theorem main_executeCode_no_timeout :
    (main_executeCode (fun _ => .ok []) .hangs "while True: pass".data []).ret = none := rfl

/-- C5 (amended): an exit code of zero with stdout holding no sentinel
block is not reported as a contract violation: the result
classification of `main.py` returns the success dictionary
`{"output": stripped stdout}` whenever no occurrence of the start
marker in the stripped stdout is followed by an end marker (so the
sentinel regex cannot match), and the ntest classifier returns an
errorless result whose answer is the stripped stdout whenever stdout
does not contain both answer markers and does not contain the
`__ERROR__` marker.  This holds for empty and non-empty stdout
alike. -/
theorem executeCode_missing_block_fallback (out err out2 err2 : Str)
    (h1 : ∀ i, i < (pyStrip out).length →
      isPre finalStartMark ((pyStrip out).drop i) = true →
      containsSub finalEndMark ((pyStrip out).drop (i + finalStartMark.length)) = false)
    (h2 : containsSub ansStartMark out2 = false ∨ containsSub ansEndMark out2 = false)
    (h3 : containsSub errMark out2 = false) :
    main_classify 0 out err = [("output", pyStrip out)]
    ∧ ntest_classify 0 out2 err2
      = { error := none, answer := some (Json.str (pyStrip out2)), stdout := some out2 } := by
  constructor
  · have hmb : mainMatchBlock (pyStrip out) = none := mainBlockGo_no_block _ _ h1
    simp [main_classify, pyFalsyCompleted, hmb]
  · rcases h2 with h2 | h2 <;> simp [ntest_classify, h2, h3]

/-- Witness for the missing-block fallback theorem at concrete runs. -/
theorem executeCode_missing_block_fallback_witness :
    (∀ i, i < (pyStrip "hello".data).length →
      isPre finalStartMark ((pyStrip "hello".data).drop i) = true →
      containsSub finalEndMark ((pyStrip "hello".data).drop (i + finalStartMark.length))
        = false)
    ∧ containsSub errMark "world".data = false
    ∧ main_classify 0 "hello".data [] = [("output", pyStrip "hello".data)]
    ∧ ntest_classify 0 "world".data []
      = { error := none, answer := some (Json.str (pyStrip "world".data)),
          stdout := some "world".data } :=
  ⟨by decide, by decide,
    (executeCode_missing_block_fallback "hello".data [] "world".data [] (by decide)
      (Or.inl (by decide)) (by decide)).1,
    (executeCode_missing_block_fallback "hello".data [] "world".data [] (by decide)
      (Or.inl (by decide)) (by decide)).2⟩

/-- C5 counterexample: with exit code 0 and the sentinel-free non-empty
stdout `hello`, `executeCode` in `main.py` returns a success dictionary
`{"output": "hello"}` — not a contract-violation error as the claim
requires. -/
theorem main_executeCode_missing_block_success :
    (main_executeCode (fun _ => .ok []) (.completed 0 "hello".data []) [] []).ret
      = some [("output", "hello".data)] := rfl

/-- C6 (amended): in the ntest implementation, the first hard dependency
failure (non-zero exit, with every earlier install succeeding) aborts
the remaining installs — exactly the failing position plus one installs
are attempted — and surfaces the dependency-failure result for the
attempt, so the generated program is not executed in that attempt.  In
`main.py` the failure is caught and the program is executed anyway; see
the counterexample. -/
theorem ntest_executeCode_dependency_failure (inst : Nat → InstallStep) (run : RunStep)
    (t : Nat) (pre : List Str) (d e : Str) (post : List Str)
    (hpre : ∀ i, i < pre.length → inst i = .ok)
    (hk : inst pre.length = .failed e) :
    (ntest_executeCode inst run (pre ++ d :: post) t).res
        = { error := some "Failed to install required dependencies".data, answer := none,
            stdout := none }
    ∧ (ntest_executeCode inst run (pre ++ d :: post) t).ranChild = false
    ∧ (ntest_executeCode inst run (pre ++ d :: post) t).installsAttempted
      = pre.length + 1 := by
  have hinst : install_dependencies inst (pre ++ d :: post) = (false, pre.length + 1) := by
    have hne : (pre ++ d :: post).isEmpty = false := by
      cases pre <;> rfl
    rw [install_dependencies, hne]
    simp only [Bool.false_eq_true, if_false]
    have := installGo_fail inst e pre 0 d post (fun i hi => by simpa using hpre i hi)
      (by simpa using hk)
    simpa using this
  have hcond : (pre ++ d :: post) ≠ [] ∧ (install_dependencies inst (pre ++ d :: post)).1
      = false := by
    refine ⟨by cases pre <;> simp, ?_⟩
    rw [hinst]
  rw [ntest_executeCode, if_pos hcond]
  refine ⟨rfl, rfl, ?_⟩
  show (install_dependencies inst (pre ++ d :: post)).2 = pre.length + 1
  rw [hinst]

/-- Witness for the dependency-failure theorem at a concrete run where
the second of three installs fails. -/
theorem ntest_executeCode_dependency_failure_witness :
    (∀ i, i < (["a".data] : List Str).length →
      (fun i => if i = 0 then InstallStep.ok else InstallStep.failed "boom".data) i
        = InstallStep.ok)
    ∧ (fun i => if i = 0 then InstallStep.ok else InstallStep.failed "boom".data)
        (["a".data] : List Str).length = InstallStep.failed "boom".data
    ∧ (ntest_executeCode
        (fun i => if i = 0 then InstallStep.ok else InstallStep.failed "boom".data)
        (.completed 0 [] []) (["a".data] ++ "b".data :: ["c".data]) 120).res
      = { error := some "Failed to install required dependencies".data, answer := none,
          stdout := none }
    ∧ (ntest_executeCode
        (fun i => if i = 0 then InstallStep.ok else InstallStep.failed "boom".data)
        (.completed 0 [] []) (["a".data] ++ "b".data :: ["c".data]) 120).ranChild = false :=
  ⟨by decide, by decide,
    (ntest_executeCode_dependency_failure
      (fun i => if i = 0 then InstallStep.ok else InstallStep.failed "boom".data)
      (.completed 0 [] []) 120 ["a".data] "b".data "boom".data ["c".data]
      (by decide) (by decide)).1,
    (ntest_executeCode_dependency_failure
      (fun i => if i = 0 then InstallStep.ok else InstallStep.failed "boom".data)
      (.completed 0 [] []) 120 ["a".data] "b".data "boom".data ["c".data]
      (by decide) (by decide)).2.1⟩

/-- C6 counterexample: in `main.py` a hard dependency-install failure
(`CalledProcessError` from `uv add`) is caught and swallowed, and the
generated program is executed anyway in the same attempt, its output
returned as a success. -/
theorem main_executeCode_runs_after_install_failure :
    (main_executeCode (fun _ => .calledProcessError "exit 1".data "no such package".data)
        (.completed 0 "ok".data []) "x = 1".data ["missing-pkg".data]).ranChild = true
    ∧ (main_executeCode (fun _ => .calledProcessError "exit 1".data "no such package".data)
        (.completed 0 "ok".data []) "x = 1".data ["missing-pkg".data]).ret
      = some [("output", "ok".data)] := ⟨rfl, rfl⟩

/-- C2 (amended): for an execution result with exit code 0 whose stdout
contains a well-formed sentinel block wrapping the JSON encoding of
`{"answer": v}` — the first start-marker occurrence opening the block,
the first end-marker occurrence closing it, no error marker anywhere —
the ntest outcome parser yields the errorless result carrying exactly
the decoded value `v`: encoding then decoding returns the original
value, for strings, numbers, booleans, null, lists and mappings built
from them.  The `main.py` parser instead returns the raw text between
its sentinels without JSON decoding; see the counterexample. -/
theorem ntest_classify_success_roundtrip (v : Json) (a m b stderr2 : Str)
    (hwf : jwf v = true)
    (herr : containsSub errMark (a ++ ansStartMark ++ m ++ ansEndMark ++ b) = false)
    (hs : findSub ansStartMark (a ++ ansStartMark ++ m ++ ansEndMark ++ b) = some a.length)
    (he : findSub ansEndMark (a ++ ansStartMark ++ m ++ ansEndMark ++ b)
      = some (a.length + ansStartMark.length + m.length))
    (hm : pyStrip m = dumps (Json.obj [("answer".data, v)])) :
    ntest_classify 0 (a ++ ansStartMark ++ m ++ ansEndMark ++ b) stderr2
      = { error := none, answer := some v,
          stdout := some (a ++ ansStartMark ++ m ++ ansEndMark ++ b) } := by
  have hans : strWf "answer".data = true := by decide
  have hwfo : jwf (Json.obj [("answer".data, v)]) = true := by
    simp [jwf, jwfFields, hans, hwf]
  have hloads := loads_dumps _ hwfo
  have hcontS := containsSub_of_findSub hs
  have hcontE := containsSub_of_findSub he
  have hco : (containsSub ansStartMark (a ++ ansStartMark ++ m ++ ansEndMark ++ b)
      && containsSub ansEndMark (a ++ ansStartMark ++ m ++ ansEndMark ++ b)) = true := by
    rw [hcontS, hcontE]
    rfl
  simp only [ntest_classify]
  rw [if_neg (show ¬ ((0 : Int) ≠ 0) by simp), herr]
  simp only [Bool.false_eq_true, if_false]
  rw [hco, if_pos rfl, hs, he]
  simp only [Option.getD_some]
  rw [pySlice_middle a ansStartMark m ansEndMark b, hm, hloads]
  rfl

/-- Witness for the success round trip at the concrete value 4. -/
theorem ntest_classify_success_roundtrip_witness :
    jwf (Json.num 4) = true
    ∧ pyStrip "\n\x7b\"answer\": 4\x7d\n".data = dumps (Json.obj [("answer".data, Json.num 4)])
    ∧ ntest_classify 0
        ([] ++ ansStartMark ++ "\n\x7b\"answer\": 4\x7d\n".data ++ ansEndMark ++ "\n".data) []
      = { error := none, answer := some (Json.num 4),
          stdout := some ([] ++ ansStartMark ++ "\n\x7b\"answer\": 4\x7d\n".data
            ++ ansEndMark ++ "\n".data) } :=
  ⟨by decide, by decide,
    ntest_classify_success_roundtrip (Json.num 4) [] "\n\x7b\"answer\": 4\x7d\n".data
      "\n".data [] (by decide) (by decide) (by decide) (by decide) (by decide)⟩

/-- C2 counterexample: `executeCode` in `main.py` does not decode the
sentinel payload: with exit code 0 and a block wrapping the valid JSON
string `"hi"`, the returned output is the raw four-character text with
its quotes, which differs from the decoded two-character value. -/
theorem main_executeCode_no_decode :
    (main_executeCode (fun _ => .ok [])
        (.completed 0 "FINAL_OUTPUT_START\n\"hi\"\nFINAL_OUTPUT_END".data []) [] []).ret
      = some [("output", "\"hi\"".data)]
    ∧ "\"hi\"".data ≠ "hi".data := ⟨rfl, by decide⟩

/-- C7 (amended): the extractor selects a greedy span from the first
left brace to the last right brace of the fence-stripped text, not a
balanced-bracket span: whenever fence removal leaves `pre ++ J ++ post`
with `J` the encoding of a `{program, dependencies}` object, `pre` free
of left braces and `post` free of right braces, the extractor recovers
the cleaned program together with the declared dependency list —
tolerating fences and nested braces inside the object, but not trailing
prose containing a right brace (see the counterexample). -/
theorem main_extract_program_greedy (s pre post p : Str) (ds : List Json)
    (hstage : fenceStage s = pre ++ dumps (Json.obj [("program".data, Json.str p),
      ("dependencies".data, Json.arr ds)]) ++ post)
    (hpre : ∀ c ∈ pre, c ≠ lbrace)
    (hpost : ∀ c ∈ post, c ≠ rbrace)
    (hwf : jwf (Json.obj [("program".data, Json.str p), ("dependencies".data, Json.arr ds)])
      = true) :
    main_extract_program s = .ok (mainClean p) ds := by
  obtain ⟨u, hu⟩ :=
    dumpsFields_ends [("program".data, Json.str p), ("dependencies".data, Json.arr ds)]
  have hJ : dumps (Json.obj [("program".data, Json.str p), ("dependencies".data, Json.arr ds)])
      = (lbrace :: u) ++ [rbrace] := by
    simp [dumps, hu]
  have hspan := braceSpan_of_parts pre post u hpre hpost
  have hloads := loads_dumps _ hwf
  simp only [main_extract_program]
  rw [hstage, hJ]
  simp only [hspan]
  rw [← hJ]
  simp only [hloads]
  rfl

/-- Witness for the extractor theorem at a concrete fenced response. -/
theorem main_extract_program_greedy_witness :
    fenceStage "```json\n\x7b\"program\": \"x = 1\", \"dependencies\": []\x7d\n```".data
      = [] ++ dumps (Json.obj [("program".data, Json.str "x = 1".data),
          ("dependencies".data, Json.arr [])]) ++ []
    ∧ main_extract_program
        "```json\n\x7b\"program\": \"x = 1\", \"dependencies\": []\x7d\n```".data
      = .ok (mainClean "x = 1".data) [] :=
  ⟨by decide,
    main_extract_program_greedy
      "```json\n\x7b\"program\": \"x = 1\", \"dependencies\": []\x7d\n```".data
      [] [] "x = 1".data [] (by decide) (by simp) (by simp) (by decide)⟩

/-- C7 counterexample: with a single well-formed object followed by
prose containing a right brace, the greedy first-to-last span is not
valid JSON, so the extractor returns the empty failure pair instead of
recovering the object — refuting balanced-bracket matching and trailing
prose tolerance; the second conjunct records that the input does
contain the well-formed object. -/
theorem main_extract_program_trailing_brace :
    main_extract_program
        ("Here is the solution: \x7b\"program\": \"x = 1\", \"dependencies\": []\x7d".data
          ++ " Note: use \x7bbraces\x7d carefully.".data)
      = .ok [] []
    ∧ containsSub
        (dumps (Json.obj [("program".data, Json.str "x = 1".data),
          ("dependencies".data, Json.arr [])]))
        ("Here is the solution: \x7b\"program\": \"x = 1\", \"dependencies\": []\x7d".data
          ++ " Note: use \x7bbraces\x7d carefully.".data) = true := ⟨rfl, by decide⟩
